/-
Verification of the greek-quiz-bot core against its specification.

Shallow embedding of the repository's Python source:
  * `src/bot.py`   — session engine, content validator/repairer, persistence
  * `src/topics.py` — topic scheduler (priority-based spaced repetition)

Numbers: Python floats are modelled as exact rationals (`ℚ`); Python ints as
`ℤ`/`ℕ`; dates as integer day ordinals (`ℤ`), so `date + timedelta(days=k)`
is `d + k` and `(a - b).days` is `a - b`.

External collaborators (the OpenAI repair call, `random.shuffle`,
`difflib.get_close_matches`, Python's `unicodedata` tables) are modelled as
explicit function parameters, constrained only by the properties the source
relies on.
-/
import Mathlib

namespace GreekQuizBot

/-! ### Python primitives -/

/-- Python's builtin `round` on a rational: round-half-to-even
(banker's rounding), as used by `round(stability)` in `bot.py`. -/
def pyRound (q : ℚ) : ℤ :=
  let f : ℤ := ⌊q⌋
  let r : ℚ := q - (f : ℚ)
  if r < 1/2 then f
  else if 1/2 < r then f + 1
  else if f % 2 = 0 then f else f + 1

/-! ### TopicMemoryModel — `_update_topic_memory_for_answer` (bot.py 513-555) -/

/-- The columns read by the `SELECT mastery, stability, review_count, lapses
FROM topic_memory` query in `_update_topic_memory_for_answer`. -/
structure MemPrior where
  mastery : ℚ
  stability : ℚ
  review_count : ℤ
  lapses : ℤ
  deriving DecidableEq

/-- The full row written back by the `INSERT ... ON CONFLICT ... DO UPDATE`
statement in `_update_topic_memory_for_answer` (dates as day ordinals). -/
structure MemRow where
  mastery : ℚ
  stability : ℚ
  due_at : ℤ
  last_seen : ℤ
  review_count : ℤ
  lapses : ℤ
  deriving DecidableEq

/-- `_update_topic_memory_for_answer` (bot.py 513-555): load the prior row
(or the lazy defaults when the topic has no row), apply the asymmetric
spaced-repetition update, and return the row that is written back.
`today` stands for `CURRENT_DATE` / `date.today()`. -/
def update_topic_memory_for_answer (prior : Option MemPrior) (correct : Bool)
    (today : ℤ) : MemRow :=
  let mastery₀ : ℚ := match prior with | some r => r.mastery | none => 1/4
  let stability₀ : ℚ := match prior with | some r => r.stability | none => 1
  let review_count₀ : ℤ := match prior with | some r => r.review_count | none => 0
  let lapses₀ : ℤ := match prior with | some r => r.lapses | none => 0
  let mastery := if correct then min 1 (mastery₀ + 8/100) else max 0 (mastery₀ - 12/100)
  let stability := if correct then min 45 (max 1 (stability₀ * (14/10)))
                   else max 1 (stability₀ * (6/10))
  let lapses := if correct then lapses₀ else lapses₀ + 1
  let review_count := review_count₀ + 1
  let due_at := today + max 1 (pyRound stability)
  { mastery := mastery, stability := stability, due_at := due_at,
    last_seen := today, review_count := review_count, lapses := lapses }

/-- C1. For every prior topic memory state (or the lazy default
mastery = 0.25, stability = 1.0, reviewCount = 0, lapses = 0 when the topic
has no row) and every observed answer: on a correct answer
mastery' = min(1, mastery + 0.08) and stability' = min(45, max(1, stability·1.4));
on an incorrect answer mastery' = max(0, mastery − 0.12),
stability' = max(1, stability·0.6) and lapses' = lapses + 1; in both cases
reviewCount' = reviewCount + 1, dueAt' = today + max(1, round(stability'))
days, and lastSeen' = today. -/
theorem C1_topic_memory_update (prior : Option MemPrior) (correct : Bool)
    (today : ℤ) :
    let m₀ : ℚ := (prior.map MemPrior.mastery).getD (25/100)
    let s₀ : ℚ := (prior.map MemPrior.stability).getD 1
    let rc₀ : ℤ := (prior.map MemPrior.review_count).getD 0
    let lp₀ : ℤ := (prior.map MemPrior.lapses).getD 0
    let r := update_topic_memory_for_answer prior correct today
    r.mastery = (if correct then min 1 (m₀ + 8/100) else max 0 (m₀ - 12/100))
      ∧ r.stability = (if correct then min 45 (max 1 (s₀ * (14/10)))
                       else max 1 (s₀ * (6/10)))
      ∧ r.lapses = (if correct then lp₀ else lp₀ + 1)
      ∧ r.review_count = rc₀ + 1
      ∧ r.due_at = today + max 1 (pyRound r.stability)
      ∧ r.last_seen = today := by
  cases prior <;> cases correct <;>
    simp [update_topic_memory_for_answer, Option.getD, Option.map] <;> norm_num

/-! ### Master topics and `normalize_topic` (bot.py 106-141, topics.py 5-35) -/

/-- `MASTER_TOPICS` — the fixed canonical topic list (identical in `bot.py`
and `topics.py`). -/
def MASTER_TOPICS : List String :=
  ["Глаголы", "Прошедшее время", "Будущее время", "Отрицание", "Местоимения",
   "Артикли", "Существительные", "Прилагательные", "Указательные местоимения",
   "Числа", "Вопросительные слова", "Предлоги и союзы", "Бытовые ситуации",
   "Время и дата", "Семья", "Части тела", "Погода", "Дом и квартира",
   "Еда и продукты", "Одежда", "Наречия"]

/-- `normalize_topic` (bot.py 131-141): identity on canonical names, otherwise
the nearest `difflib.get_close_matches` hit (the stdlib matcher is an
external collaborator, passed in as `closeMatch`; `matches[0] if matches
else topic` is `Option.getD`). -/
def normalize_topic (closeMatch : String → Option String) (topic : String) :
    String :=
  if topic ∈ MASTER_TOPICS then topic else (closeMatch topic).getD topic

/-! ### ContentValidator — `_collect_question_errors` (bot.py 1037-1084) -/

/-- The Python `unicodedata` tables and string classification primitives used
by `canonicalize_option`: per-character NFKD decomposition, the combining
test, the `category(ch).startswith("P")` test, `str.split()` whitespace,
and per-character `str.casefold()` expansion.  These are stdlib data tables,
external to the repository, so they are a parameter of the embedding. -/
structure UnicodeData where
  nfkd : Char → List Char
  combining : Char → Bool
  isPunct : Char → Bool
  isSpace : Char → Bool
  foldChar : Char → List Char

/-- `canonicalize_option` (bot.py 1041-1046): NFKD-normalize, strip combining
marks, strip punctuation, collapse whitespace (`" ".join(s.split())`),
case-fold.  NFKD is modelled as per-character decomposition; the canonical
reordering step of real NFKD only permutes combining marks, which are
deleted by the very next line, so it is invisible here. -/
def canonicalize_option (u : UnicodeData) (s : String) : String :=
  let n₁ := s.toList.flatMap u.nfkd
  let n₂ := n₁.filter (fun c => !(u.combining c))
  let n₃ := n₂.filter (fun c => !(u.isPunct c))
  let n₄ := List.intercalate [' '] ((n₃.splitOnP u.isSpace).filter (· ≠ []))
  (n₄.flatMap u.foldChar).asString

/-- A generated quiz question.  The source passes questions around as JSON
dicts; this is the typed shape with the six required keys (`question`,
`options`, `correctIndex`, `explanation`, `topic`, `type` — the last renamed
`qtype` because `type` is a Lean keyword).  The validator's `isinstance`
/ key-set checks are unrepresentable here: every `Question` value has
exactly the required fields, with `correctIndex` kept as an arbitrary
integer. -/
structure Question where
  question : String
  options : List String
  correctIndex : ℤ
  explanation : String
  topic : String
  qtype : String
  deriving DecidableEq

/-- The keys of `TYPE_LABELS` (bot.py 1323-1328), the closed question-type
enum checked by the validator. -/
def TYPE_LABELS_keys : List String :=
  ["ru_to_gr", "gr_to_ru", "choose_form", "fill_blank"]

/-- Python's `not s.strip()` test: a string strips to empty exactly when all
its characters are whitespace. -/
def stripIsEmpty (s : String) : Bool :=
  s.toList.all Char.isWhitespace

/-- First validation pass of `_collect_question_errors` (bot.py 1048-1074):
the per-item structural checks, in source order, each with its distinct
rejection reason. -/
def questionStructuralError (q : Question) : Option String :=
  if stripIsEmpty q.question then some "поле 'question' должно быть непустой строкой"
  else if stripIsEmpty q.explanation then some "поле 'explanation' должно быть непустой строкой"
  else if q.qtype ∉ TYPE_LABELS_keys then some "недопустимый type"
  else if q.options.length ≠ 4 then some "options должен содержать ровно 4 варианта"
  else if q.options.any stripIsEmpty then some "каждый вариант в options должен быть непустой строкой"
  else if ¬(0 ≤ q.correctIndex ∧ q.correctIndex < q.options.length) then
    some "correctIndex out of range"
  else none

/-- `_collect_question_errors` (bot.py 1037-1084) as the partial map
`index ↦ reason` it returns: the structural pass, then (only for indices
with no structural error) the duplicate-options check after
canonicalization. -/
def collect_question_errors (u : UnicodeData) (qs : List Question) (i : ℕ) :
    Option String :=
  match qs[i]? with
  | none => none
  | some q =>
    match questionStructuralError q with
    | some r => some r
    | none =>
      if (q.options.map (canonicalize_option u)).Nodup then none
      else some "duplicate options detected"

/-- The sorted key set of the `_collect_question_errors` dict
(`sorted(errors)` in the repair protocol). -/
def errorIndices (u : UnicodeData) (qs : List Question) : List ℕ :=
  (List.range qs.length).filter (fun i => (collect_question_errors u qs i).isSome)

/-- Appending a purely-punctuational suffix (every character of its NFKD
decomposition is non-combining punctuation) does not change the canonical
form of an option. -/
theorem canonicalize_option_append_punct (u : UnicodeData) (s p : String)
    (hp : ∀ c ∈ p.toList, ∀ d ∈ u.nfkd c,
      u.combining d = false ∧ u.isPunct d = true) :
    canonicalize_option u (s ++ p) = canonicalize_option u s := by
  have h2 : ((p.toList.flatMap u.nfkd).filter
      (fun c => !(u.combining c))).filter (fun c => !(u.isPunct c)) = [] := by
    rw [List.filter_eq_nil_iff]
    intro c hc
    obtain ⟨a, ha, hd⟩ := List.mem_flatMap.mp (List.mem_of_mem_filter hc)
    simp [(hp a ha c hd).2]
  have htl : (s ++ p).toList = s.toList ++ p.toList := String.data_append s p
  simp only [canonicalize_option, htl, List.flatMap_append, List.filter_append,
    h2, List.append_nil]

/-- C4. The validator records a rejection reason for any question whose four
options are not pairwise distinct after canonicalization; in particular a
question in which one option is another option plus a trailing
punctuation-only suffix is reported invalid. -/
theorem C4_duplicate_canonical_options_rejected
    (u : UnicodeData) (qs : List Question) (i : ℕ) (q : Question)
    (hq : qs[i]? = some q) :
    (¬ (q.options.map (canonicalize_option u)).Nodup →
        (collect_question_errors u qs i).isSome)
    ∧ (∀ j k : ℕ, ∀ hj : j < q.options.length, ∀ hk : k < q.options.length,
        j ≠ k → ∀ p : String,
        q.options.get ⟨k, hk⟩ = q.options.get ⟨j, hj⟩ ++ p →
        (∀ c ∈ p.toList, ∀ d ∈ u.nfkd c,
          u.combining d = false ∧ u.isPunct d = true) →
        (collect_question_errors u qs i).isSome) := by
  constructor
  · intro hdup
    unfold collect_question_errors
    rw [hq]
    cases hs : questionStructuralError q <;> simp [hs, hdup]
  · intro j k hj hk hjk p hsuffix hpunct
    have hdup : ¬ (q.options.map (canonicalize_option u)).Nodup := by
      intro hnd
      have hjm : j < (q.options.map (canonicalize_option u)).length := by
        simpa using hj
      have hkm : k < (q.options.map (canonicalize_option u)).length := by
        simpa using hk
      have heq : (q.options.map (canonicalize_option u)).get ⟨j, hjm⟩
          = (q.options.map (canonicalize_option u)).get ⟨k, hkm⟩ := by
        simp only [List.get_eq_getElem, List.getElem_map]
        simp only [List.get_eq_getElem] at hsuffix
        rw [hsuffix, canonicalize_option_append_punct u _ p hpunct]
      have := (hnd.get_inj_iff).mp heq
      exact hjk (by simpa using this)
    -- duplicates after canonicalization are always rejected, by the first part
    unfold collect_question_errors
    rw [hq]
    cases hs : questionStructuralError q <;> simp [hs, hdup]

/-- The combining acute accent U+0301, produced by NFKD decomposition of
Greek vowels with tonos. -/
def combiningAcute : Char := Char.ofNat 769

/-- A concrete instantiation of the `unicodedata` tables, faithful to the
real Unicode data for the characters exercised by the witness below:
`ά`/`ό` decompose under NFKD into the base vowel plus U+0301; U+0301 is a
combining mark; ASCII punctuation has category `P*`; the characters
involved are unchanged by `casefold`. -/
def udataGreek : UnicodeData where
  nfkd c := if c = 'ά' then ['α', combiningAcute]
            else if c = 'ό' then ['ο', combiningAcute] else [c]
  combining c := c = combiningAcute
  isPunct c := c ∈ ['.', '!', ',', ';', '?']
  isSpace c := c = ' '
  foldChar c := [c]

/-- Witness for C4: the options `"πάω"` and `"πάω."` differ only by a
trailing full stop, and the validator flags index 0 of the batch. -/
theorem C4_witness :
    (collect_question_errors udataGreek
      [⟨"Вопрос", ["πάω", "πάω.", "ναι", "οχι"], 0, "Пояснение",
        "Глаголы", "ru_to_gr"⟩] 0).isSome :=
  (C4_duplicate_canonical_options_rejected udataGreek
      [⟨"Вопрос", ["πάω", "πάω.", "ναι", "οχι"], 0, "Пояснение",
        "Глаголы", "ru_to_gr"⟩] 0
      ⟨"Вопрос", ["πάω", "πάω.", "ναι", "οχι"], 0, "Пояснение",
        "Глаголы", "ru_to_gr"⟩ rfl).2
    0 1 (by decide) (by decide) (by decide) "." (by decide) (by decide)

/-! ### Finalization — `_finalize_questions` (bot.py 1103-1120) -/

/-- The per-question body of the shuffle loop in `_finalize_questions`
(bot.py 1115-1118): remember the correct option's text, shuffle the options
(`random.shuffle`, modelled as a per-index permutation parameter), and
recompute `correctIndex` with `list.index`. -/
def shuffledQuestion (shuffle : ℕ → List String → List String) (i : ℕ)
    (q : Question) : Question :=
  let correct_text := q.options.getD q.correctIndex.toNat ""
  let opts := shuffle i q.options
  { q with options := opts, correctIndex := (opts.indexOf correct_text : ℕ) }

/-- `_finalize_questions` (bot.py 1103-1120): raise on the smallest invalid
index, otherwise normalize every topic and shuffle every question's
options, recomputing `correctIndex`. -/
def finalize_questions (u : UnicodeData) (closeMatch : String → Option String)
    (shuffle : ℕ → List String → List String) (qs : List Question) :
    Except String (List Question) :=
  match errorIndices u qs with
  | i :: _ =>
    .error ("Question " ++ toString i ++ ": "
      ++ (collect_question_errors u qs i).getD "")
  | [] =>
    let qs₁ := qs.map (fun q => { q with topic := normalize_topic closeMatch q.topic })
    .ok (qs₁.enum.map (fun p => shuffledQuestion shuffle p.1 p.2))

/-- A batch has an empty error map exactly when every index's error entry is
`none`. -/
theorem errorIndices_eq_nil_iff (u : UnicodeData) (qs : List Question) :
    errorIndices u qs = [] ↔
      ∀ i < qs.length, collect_question_errors u qs i = none := by
  simp [errorIndices, List.filter_eq_nil_iff, Option.not_isSome_iff_eq_none]

/-- Unfolding a successful `_finalize_questions` run: the batch validated
cleanly and the output is the normalize-then-shuffle map. -/
theorem finalize_questions_ok {u : UnicodeData}
    {closeMatch : String → Option String}
    {shuffle : ℕ → List String → List String} {qs out : List Question}
    (h : finalize_questions u closeMatch shuffle qs = .ok out) :
    errorIndices u qs = [] ∧
      out = ((qs.map (fun q =>
          { q with topic := normalize_topic closeMatch q.topic })).enum.map
        (fun p => shuffledQuestion shuffle p.1 p.2)) := by
  unfold finalize_questions at h
  cases he : errorIndices u qs with
  | cons i t => rw [he] at h; simp at h
  | nil => rw [he] at h; simp only [Except.ok.injEq] at h; exact ⟨rfl, h.symm⟩

/-- A question with no structural error has exactly 4 options and an
in-bounds `correctIndex`. -/
theorem structuralError_none_bounds {q : Question}
    (h : questionStructuralError q = none) :
    q.options.length = 4 ∧ 0 ≤ q.correctIndex ∧
      q.correctIndex < q.options.length := by
  unfold questionStructuralError at h
  split_ifs at h with h1 h2 h3 h4 h5 h6
  refine ⟨by omega, ?_⟩
  push_neg at h6
  exact h6

/-- `l.getD (l.indexOf a) d = a` whenever `a ∈ l`: Python's `list.index`
finds an occurrence of the element it looks up. -/
theorem getD_indexOf_self (l : List String) (a : String) (h : a ∈ l) :
    l.getD (l.indexOf a) "" = a := by
  have hlt : l.indexOf a < l.length := List.indexOf_lt_length.mpr h
  rw [List.getD_eq_getElem l "" hlt]
  simp [List.indexOf_get hlt]

/-- An error-free index of a batch yields a question with no structural
error and canonically distinct options. -/
theorem collect_none_elim {u : UnicodeData} {qs : List Question} {i : ℕ}
    {q : Question} (hq : qs[i]? = some q)
    (h : collect_question_errors u qs i = none) :
    questionStructuralError q = none ∧
      (q.options.map (canonicalize_option u)).Nodup := by
  unfold collect_question_errors at h
  rw [hq] at h
  have h' : (match questionStructuralError q with
      | some r => some r
      | none =>
        if (q.options.map (canonicalize_option u)).Nodup then none
        else some "duplicate options detected") = (none : Option String) := h
  cases hs : questionStructuralError q with
  | some r => rw [hs] at h'; simp at h'
  | none =>
    rw [hs] at h'
    refine ⟨rfl, ?_⟩
    by_contra hnd
    rw [if_neg hnd] at h'
    simp at h'

/-- C3. For every batch that passes validation and every permutation the
shuffle can produce, finalization recomputes `correctIndex` so that the
finalized `options[correctIndex]` is the very option text that was correct
before the shuffle (and the recomputed index is in bounds). -/
theorem C3_finalize_tracks_correct_option
    (u : UnicodeData) (closeMatch : String → Option String)
    (shuffle : ℕ → List String → List String) (qs out : List Question)
    (hperm : ∀ i l, (shuffle i l).Perm l)
    (hok : finalize_questions u closeMatch shuffle qs = .ok out) :
    ∀ (i : ℕ) (q q' : Question), qs[i]? = some q → out[i]? = some q' →
      q'.options.getD q'.correctIndex.toNat ""
          = q.options.getD q.correctIndex.toNat ""
        ∧ 0 ≤ q'.correctIndex ∧ q'.correctIndex < q'.options.length := by
  obtain ⟨hvalid, hout⟩ := finalize_questions_ok hok
  intro i q q' hq hq'
  have hi : i < qs.length := by
    by_contra hge
    rw [List.getElem?_eq_none (by omega)] at hq
    exact Option.noConfusion hq
  have hnone := (errorIndices_eq_nil_iff u qs).mp hvalid i hi
  obtain ⟨hstruct, _⟩ := collect_none_elim hq hnone
  obtain ⟨hlen4, hge0, hlt⟩ := structuralError_none_bounds hstruct
  -- identify q'
  have hq'' : q' = shuffledQuestion shuffle i
      { q with topic := normalize_topic closeMatch q.topic } := by
    rw [hout] at hq'
    rw [List.getElem?_map, List.getElem?_enum, List.getElem?_map, hq] at hq'
    simpa using hq'.symm
  subst hq''
  unfold shuffledQuestion
  simp only []
  have hperm' : (shuffle i q.options).Perm q.options := hperm i q.options
  have htn : q.correctIndex.toNat < q.options.length := by omega
  have hmem : q.options.getD q.correctIndex.toNat "" ∈ q.options := by
    rw [List.getD_eq_getElem q.options "" htn]
    exact List.getElem_mem htn
  have hmem' : q.options.getD q.correctIndex.toNat "" ∈ shuffle i q.options :=
    hperm'.symm.subset hmem
  have hidx : (shuffle i q.options).indexOf
      (q.options.getD q.correctIndex.toNat "") < (shuffle i q.options).length :=
    List.indexOf_lt_length.mpr hmem'
  refine ⟨?_, by positivity, ?_⟩
  · rw [Int.toNat_natCast]
    exact getD_indexOf_self _ _ hmem'
  · exact_mod_cast hidx

/-- C10. Finalization changes only each question's option order, its
`correctIndex` and its topic: batch size and order are preserved,
`question` / `explanation` / `type` are untouched, the finalized options
are a permutation of the originals, and the topic is replaced by
`normalize_topic(topic)`, which is the identity on canonical
`MASTER_TOPICS` names. -/
theorem C10_finalize_frame
    (u : UnicodeData) (closeMatch : String → Option String)
    (shuffle : ℕ → List String → List String) (qs out : List Question)
    (hperm : ∀ i l, (shuffle i l).Perm l)
    (hok : finalize_questions u closeMatch shuffle qs = .ok out) :
    out.length = qs.length ∧
      ∀ (i : ℕ) (q q' : Question), qs[i]? = some q → out[i]? = some q' →
        q'.question = q.question ∧ q'.explanation = q.explanation
          ∧ q'.qtype = q.qtype ∧ q'.options.Perm q.options
          ∧ q'.topic = normalize_topic closeMatch q.topic
          ∧ (q.topic ∈ MASTER_TOPICS → q'.topic = q.topic) := by
  obtain ⟨_, hout⟩ := finalize_questions_ok hok
  constructor
  · rw [hout]; simp
  intro i q q' hq hq'
  have hq'' : q' = shuffledQuestion shuffle i
      { q with topic := normalize_topic closeMatch q.topic } := by
    rw [hout] at hq'
    rw [List.getElem?_map, List.getElem?_enum, List.getElem?_map, hq] at hq'
    simpa using hq'.symm
  subst hq''
  unfold shuffledQuestion
  refine ⟨rfl, rfl, rfl, hperm i q.options, rfl, ?_⟩
  intro hmem
  simp [normalize_topic, hmem]

/-- A concrete valid question used by the finalization witnesses. -/
def questionA : Question :=
  ⟨"Вопрос", ["αβ", "βγ", "γδ", "δε"], 1, "Пояснение", "Глаголы", "ru_to_gr"⟩

/-- `questionA` after finalization with the reversing shuffle: options
reversed, `correctIndex` retargeted from 1 to 2. -/
def questionA' : Question :=
  ⟨"Вопрос", ["δε", "γδ", "βγ", "αβ"], 2, "Пояснение", "Глаголы", "ru_to_gr"⟩

/-- Witness for C3: a concrete one-question batch, finalized with the
reversing shuffle; the recomputed index still points at the text `"βγ"`. -/
theorem C3_witness :
    finalize_questions udataGreek (fun _ => none) (fun _ l => l.reverse)
        [questionA] = .ok [questionA'] ∧
      questionA'.options.getD questionA'.correctIndex.toNat ""
        = questionA.options.getD questionA.correctIndex.toNat "" := by
  have hok : finalize_questions udataGreek (fun _ => none)
      (fun _ l => l.reverse) [questionA] = .ok [questionA'] := by rfl
  refine ⟨hok, ?_⟩
  exact (C3_finalize_tracks_correct_option udataGreek (fun _ => none)
    (fun _ l => l.reverse) [questionA] [questionA']
    (fun _ l => l.reverse_perm) hok 0 questionA questionA' rfl rfl).1

/-- Witness for C10: the same concrete batch; finalization preserves the
text fields and permutes the options. -/
theorem C10_witness :
    finalize_questions udataGreek (fun _ => none) (fun _ l => l.reverse)
        [questionA] = .ok [questionA'] ∧
      questionA'.question = questionA.question ∧
      questionA'.options.Perm questionA.options ∧
      questionA'.topic = questionA.topic := by
  have hok : finalize_questions udataGreek (fun _ => none)
      (fun _ l => l.reverse) [questionA] = .ok [questionA'] := by rfl
  have h := (C10_finalize_frame udataGreek (fun _ => none)
    (fun _ l => l.reverse) [questionA] [questionA']
    (fun _ l => l.reverse_perm) hok).2 0 questionA questionA' rfl rfl
  exact ⟨hok, h.1, h.2.2.2.1, h.2.2.2.2.2 (by decide)⟩

/-! ### Repair protocol — `_generate_questions_openai` (bot.py 1268-1299),
`_repair_questions_openai` (bot.py 1123-1190),
`_collect_topic_plan_errors` (bot.py 1089-1101) -/

instance : Inhabited Question := ⟨⟨"", [], 0, "", "", ""⟩⟩

/-- The content-generation collaborator for targeted repair: given the
`bad_payload` list of `(index, reason, original)` records it returns a
replacement batch.  The network call and prompt construction are outside
the core. -/
def RepairFn : Type := List (ℕ × String × Question) → List Question

/-- The `bad_payload` assembled by `_repair_questions_openai`
(bot.py 1125-1132): one `(index, reason, original)` record per invalid
index, in sorted index order. -/
def repairPayload (u : UnicodeData) (qs : List Question) :
    List (ℕ × String × Question) :=
  (errorIndices u qs).map
    (fun i => (i, (collect_question_errors u qs i).getD "", qs.getD i default))

/-- `_repair_questions_openai` (bot.py 1123-1190): call the collaborator and
enforce, via `_extract_questions(..., expected_count=n)`, that it returned
exactly one replacement per requested slot, else the attempt errors. -/
def repair_questions (rf : RepairFn) (payload : List (ℕ × String × Question)) :
    Except String (List Question) :=
  let r := rf payload
  if r.length = payload.length then .ok r
  else .error "ожидается ровно n вопросов"

/-- The splice-back step (bot.py 1280-1281):
`for repl, idx in zip(repaired, sorted(errors)): parsed[idx] = repl`. -/
def spliceReplacements (qs : List Question) (idxs : List ℕ)
    (repls : List Question) : List Question :=
  (repls.zip idxs).foldl (fun acc p => acc.set p.2 p.1) qs

/-- The targeted-repair loop (bot.py 1271-1281), with the round budget as
fuel: `for repair_round in range(1, 3)` collects the error map at the top
of each round, breaks when it is empty, and otherwise regenerates exactly
the invalid slots and splices them back by index. -/
def repairLoop (u : UnicodeData) (rf : RepairFn) :
    ℕ → List Question → Except String (List Question)
  | 0, qs => .ok qs
  | n + 1, qs =>
    match errorIndices u qs with
    | [] => .ok qs
    | _ :: _ =>
      (repair_questions rf (repairPayload u qs)).bind
        (fun rep => repairLoop u rf n
          (spliceReplacements qs (errorIndices u qs) rep))

/-- The repair stage of a generation attempt: at most 2 rounds total. -/
def repairStage (u : UnicodeData) (rf : RepairFn) (qs : List Question) :
    Except String (List Question) :=
  repairLoop u rf 2 qs

/-- `_collect_topic_plan_errors` (bot.py 1089-1101) as a partial map: an
entry at `i` iff `i` is within both the batch and the plan and the topics
disagree (an absent or empty plan yields no entries). -/
def collect_topic_plan_errors (qs : List Question)
    (required : Option (List String)) (i : ℕ) : Option String :=
  match required with
  | none => none
  | some req =>
    if req = [] then none
    else
      match qs[i]?, req[i]? with
      | some q, some expected =>
        if q.topic ≠ expected then some ("topic должен быть " ++ expected)
        else none
      | _, _ => none

/-- Sorted key set of the topic-plan error map. -/
def topicPlanErrorIndices (qs : List Question)
    (required : Option (List String)) : List ℕ :=
  (List.range qs.length).filter
    (fun i => (collect_topic_plan_errors qs required i).isSome)

/-- The topic-plan enforcement loop (bot.py 1283-1295), with the round
budget as fuel: regenerate the mismatching slots, *forcibly overwrite* the
topic on each replacement with the plan's topic, splice back, re-collect. -/
def topicPlanLoop (rf : RepairFn) (required : Option (List String)) :
    ℕ → List Question → Except String (List Question)
  | 0, qs => .ok qs
  | n + 1, qs =>
    match topicPlanErrorIndices qs required with
    | [] => .ok qs
    | _ :: _ =>
      let errs := topicPlanErrorIndices qs required
      let plan := required.getD []
      (repair_questions rf (errs.map
          (fun i => (i, (collect_topic_plan_errors qs required i).getD "",
            qs.getD i default)))).bind
        (fun rep => topicPlanLoop rf required n
          (spliceReplacements qs errs
            (rep.enum.map (fun p =>
              { p.2 with topic := plan.getD (errs.getD p.1 0) "" }))))

/-- The topic-plan stage: at most 2 rounds total. -/
def topicPlanStage (rf : RepairFn) (required : Option (List String))
    (qs : List Question) : Except String (List Question) :=
  topicPlanLoop rf required 2 qs

/-- One generation attempt after JSON extraction (bot.py 1268-1299): the
targeted-repair loop, then topic-plan enforcement, then
`_finalize_questions`, which re-validates and raises if any invalid item
remains. -/
def generation_attempt (u : UnicodeData)
    (closeMatch : String → Option String)
    (shuffle : ℕ → List String → List String) (rf : RepairFn)
    (required : Option (List String)) (qs : List Question) :
    Except String (List Question) :=
  (repairStage u rf qs).bind (fun p₁ =>
    (topicPlanStage rf required p₁).bind (fun p₂ =>
      finalize_questions u closeMatch shuffle p₂))

/-- The invalid-index list is duplicate-free. -/
theorem errorIndices_nodup (u : UnicodeData) (qs : List Question) :
    (errorIndices u qs).Nodup :=
  (List.nodup_range _).filter _

/-- Every invalid index is an index of the batch. -/
theorem errorIndices_lt (u : UnicodeData) (qs : List Question) :
    ∀ i ∈ errorIndices u qs, i < qs.length := by
  intro i hi
  have := (List.mem_filter.mp hi).1
  simpa using this

/-- Splicing never touches an index outside the invalid-index list. -/
theorem spliceReplacements_getElem?_not_mem (repls : List Question)
    (qs : List Question) (idxs : List ℕ) (j : ℕ) (hj : j ∉ idxs) :
    (spliceReplacements qs idxs repls)[j]? = qs[j]? := by
  induction repls generalizing qs idxs with
  | nil => simp [spliceReplacements]
  | cons r rs ih =>
    cases idxs with
    | nil => simp [spliceReplacements]
    | cons i is =>
      have hji : i ≠ j := by
        intro h; exact hj (h ▸ List.mem_cons_self i is)
      have hjis : j ∉ is := fun h => hj (List.mem_cons_of_mem _ h)
      have hstep : spliceReplacements qs (i :: is) (r :: rs)
          = spliceReplacements (qs.set i r) is rs := rfl
      rw [hstep, ih (qs.set i r) is hjis, List.getElem?_set_ne hji]

/-- Splicing writes the k-th replacement exactly at the k-th invalid
index. -/
theorem spliceReplacements_getElem?_at (repls : List Question)
    (qs : List Question) (idxs : List ℕ) (hnd : idxs.Nodup)
    (k : ℕ) (hk : k < idxs.length) (hlen : repls.length = idxs.length)
    (hb : idxs.getD k 0 < qs.length) :
    (spliceReplacements qs idxs repls)[idxs.getD k 0]? = repls[k]? := by
  induction repls generalizing qs idxs k with
  | nil => rw [List.length_nil] at hlen; omega
  | cons r rs ih =>
    cases idxs with
    | nil => simp at hk
    | cons i is =>
      have hstep : spliceReplacements qs (i :: is) (r :: rs)
          = spliceReplacements (qs.set i r) is rs := rfl
      cases k with
      | zero =>
        have hgd : (i :: is).getD 0 0 = i := rfl
        rw [hgd] at hb ⊢
        have hnotmem : i ∉ is := (List.nodup_cons.mp hnd).1
        rw [hstep, spliceReplacements_getElem?_not_mem rs _ is i hnotmem,
          List.getElem?_set_self (by simpa using hb)]
        simp
      | succ k' =>
        have hgd : (i :: is).getD (k' + 1) 0 = is.getD k' 0 := rfl
        rw [hgd] at hb ⊢
        rw [hstep, ih (qs.set i r) is (List.nodup_cons.mp hnd).2 k'
          (by simpa using hk) (by simpa using hlen) (by simpa using hb)]
        simp

/-- C5. The repair protocol: a fully valid batch triggers no repair; the
payload sent to the regeneration collaborator lists exactly the invalid
indices, each with its reason and the original question; splicing puts the
k-th replacement at the k-th invalid index and leaves every other index
untouched; and a generation attempt only returns a batch whose final
pre-finalization state has no invalid item — otherwise it fails with an
error. -/
theorem C5_repair_protocol (u : UnicodeData)
    (closeMatch : String → Option String)
    (shuffle : ℕ → List String → List String) (rf : RepairFn)
    (required : Option (List String)) (qs : List Question) :
    (errorIndices u qs = [] → repairStage u rf qs = .ok qs)
    ∧ ((repairPayload u qs).map (fun t => t.1) = errorIndices u qs
        ∧ ∀ t ∈ repairPayload u qs,
            t.2.1 = (collect_question_errors u qs t.1).getD ""
              ∧ qs[t.1]? = some t.2.2)
    ∧ (∀ repls : List Question, repls.length = (errorIndices u qs).length →
        (∀ j : ℕ, j ∉ errorIndices u qs →
          (spliceReplacements qs (errorIndices u qs) repls)[j]? = qs[j]?)
        ∧ (∀ k : ℕ, k < (errorIndices u qs).length →
          (spliceReplacements qs (errorIndices u qs)
              repls)[(errorIndices u qs).getD k 0]? = repls[k]?))
    ∧ (∀ out, generation_attempt u closeMatch shuffle rf required qs = .ok out →
        ∃ p₁ p₂, repairStage u rf qs = .ok p₁
          ∧ topicPlanStage rf required p₁ = .ok p₂
          ∧ errorIndices u p₂ = []
          ∧ finalize_questions u closeMatch shuffle p₂ = .ok out) := by
  refine ⟨?_, ⟨?_, ?_⟩, ?_, ?_⟩
  · intro h
    unfold repairStage repairLoop
    rw [h]
  · rw [repairPayload, List.map_map]
    exact List.map_id _
  · intro t ht
    obtain ⟨i, hi, rfl⟩ := List.mem_map.mp ht
    refine ⟨rfl, ?_⟩
    have hlt := errorIndices_lt u qs i hi
    simp [List.getD_eq_getElem qs default hlt, List.getElem?_eq_getElem hlt]
  · intro repls hlen
    exact ⟨fun j hj => spliceReplacements_getElem?_not_mem repls qs _ j hj,
      fun k hk => spliceReplacements_getElem?_at repls qs _
        (errorIndices_nodup u qs) k hk hlen
        (errorIndices_lt u qs _ (by
          rw [List.getD_eq_getElem _ 0 hk]; exact List.getElem_mem hk))⟩
  · intro out hok
    unfold generation_attempt at hok
    cases h₁ : repairStage u rf qs with
    | error e => rw [h₁] at hok; simp [Except.bind] at hok
    | ok p₁ =>
      rw [h₁] at hok
      have hok₁ : (topicPlanStage rf required p₁).bind
          (fun p₂ => finalize_questions u closeMatch shuffle p₂)
            = Except.ok out := hok
      cases h₂ : topicPlanStage rf required p₁ with
      | error e => rw [h₂] at hok₁; simp [Except.bind] at hok₁
      | ok p₂ =>
        rw [h₂] at hok₁
        have hfin : finalize_questions u closeMatch shuffle p₂
            = Except.ok out := hok₁
        exact ⟨p₁, p₂, rfl, h₂, (finalize_questions_ok hfin).1, hfin⟩

/-- A question whose options are duplicates after canonicalization, used by
the repair-protocol witness. -/
def questionDup : Question :=
  ⟨"Вопрос", ["πάω", "πάω.", "ναι", "οχι"], 0, "Пояснение", "Глаголы",
    "ru_to_gr"⟩

/-- A repair collaborator that always returns the single valid replacement
`questionA`. -/
def rfFix : RepairFn := fun _ => [questionA]

/-- A repair collaborator that returns the wrong number of replacements. -/
def rfEmpty : RepairFn := fun _ => []

/-- Witness for C5: a valid batch passes the repair stage untouched, and an
attempt whose repair collaborator cannot supply replacements fails with an
error instead of returning a batch. -/
theorem C5_witness :
    errorIndices udataGreek [questionA] = []
      ∧ repairStage udataGreek rfFix [questionA] = .ok [questionA]
      ∧ generation_attempt udataGreek (fun _ => none) (fun _ l => l.reverse)
          rfEmpty none [questionDup] = .error "ожидается ровно n вопросов" := by
  refine ⟨by rfl, ?_, by rfl⟩
  exact (C5_repair_protocol udataGreek (fun _ => none) (fun _ l => l.reverse)
    rfFix none [questionA]).1 (by rfl)

/-! ### SessionEngine — `handle_answer` path of the callback handler
(bot.py 1858-1936) -/

/-- One entry of the session's `answers` list (bot.py 1892-1896). -/
structure SessionAnswer where
  topic : String
  qtype : String
  correct : Bool
  deriving DecidableEq

/-- The per-user quiz session dict (`user_sessions[user_id]`): the question
batch, the current index, the collected answers, and the `awaiting` flag
that is cleared while an answer is being processed and re-set when the
next question is issued. -/
structure SessionState where
  questions : List Question
  current : ℕ
  answers : List SessionAnswer
  awaiting : Bool
  deriving DecidableEq

/-- How the handler disposed of the event: a bare `query.answer()`
acknowledgement with no processing, or a scored answer. -/
inductive HandleOutcome where
  | ack
  | answered (correct : Bool)
  deriving DecidableEq

/-- The observable effect of one run of the answer handler. -/
structure HandleResult where
  session : SessionState
  outcome : HandleOutcome
  persistedPaused : Bool
  finished : Bool
  deriving DecidableEq

/-- The quiz-answer path of the callback handler (bot.py 1858-1936), given
an existing session: a cleared `awaiting` flag (the staleness/duplicate
guard, line 1859) or an unparseable/out-of-range option index is
acknowledged as a no-op; otherwise the answer is scored against the
current question, appended, the index advanced, and either the quiz
finishes or the session is re-persisted awaiting the next question.
`selected` is the option index parsed from the `ans_<k>` callback data
(`none` models a parse failure). -/
def handle_answer (s : SessionState) (selected : Option ℤ) : HandleResult :=
  if s.awaiting = false then ⟨s, .ack, false, false⟩
  else
    match selected with
    | none => ⟨s, .ack, false, false⟩
    | some sel =>
      if ¬(0 ≤ sel ∧ sel ≤ 3) then ⟨s, .ack, false, false⟩
      else
        let q := s.questions.getD s.current default
        let correct := sel = q.correctIndex
        let answers' := s.answers ++ [⟨q.topic, q.qtype, correct⟩]
        let current' := s.current + 1
        if s.questions.length ≤ current' then
          ⟨⟨s.questions, current', answers', false⟩, .answered correct,
            false, true⟩
        else
          ⟨⟨s.questions, current', answers', true⟩, .answered correct,
            true, false⟩

/-- C6 (amended). The handler's only duplicate suppression is the
`awaiting` flag, not a question-index comparison — the `ans_<k>` callback
data carries no question index.  While the flag is cleared (an answer is
being processed and the next question has not yet been issued), any event
is acknowledged as a no-op: session untouched, nothing persisted, no
error.  But while the session *is* awaiting input, every well-formed
answer event — a redelivered press for an earlier question included,
since it is indistinguishable — is scored against the current question
and mutates the session. -/
theorem C6_duplicate_suppression_window (s : SessionState)
    (selected : Option ℤ) :
    (s.awaiting = false →
      (handle_answer s selected).session = s
        ∧ (handle_answer s selected).session.current = s.current
        ∧ (handle_answer s selected).session.answers = s.answers
        ∧ (handle_answer s selected).outcome = .ack
        ∧ (handle_answer s selected).persistedPaused = false
        ∧ (handle_answer s selected).finished = false)
    ∧ (s.awaiting = true → ∀ sel : ℤ, 0 ≤ sel → sel ≤ 3 →
        (handle_answer s (some sel)).session.current = s.current + 1
          ∧ (handle_answer s (some sel)).session.answers.length
            = s.answers.length + 1
          ∧ (handle_answer s (some sel)).outcome ≠ HandleOutcome.ack) := by
  constructor
  · intro h
    unfold handle_answer
    rw [h]
    simp
  · intro h sel h0 h3
    have hr : ¬¬(0 ≤ sel ∧ sel ≤ 3) := not_not_intro ⟨h0, h3⟩
    refine ⟨?_, ?_, ?_⟩ <;> simp [handle_answer, h, hr, apply_ite]

/-- C6 counterexample: a session awaiting question 1 (question 0 already
answered and the next question issued, so `awaiting = true`) receives a
duplicate delivery of the earlier answer's callback; carrying no question
index, it is scored against question 1 — the index advances and the
outcome is not a bare acknowledgement, refuting the claimed no-op. -/
theorem C6_counterexample :
    (⟨[questionA', questionA'], 1, [⟨"Глаголы", "ru_to_gr", true⟩], true⟩ :
        SessionState).awaiting = true
      ∧ (handle_answer
          ⟨[questionA', questionA'], 1, [⟨"Глаголы", "ru_to_gr", true⟩], true⟩
          (some 2)).session.current ≠ 1
      ∧ (handle_answer
          ⟨[questionA', questionA'], 1, [⟨"Глаголы", "ru_to_gr", true⟩], true⟩
          (some 2)).session.answers.length ≠ 1
      ∧ (handle_answer
          ⟨[questionA', questionA'], 1, [⟨"Глаголы", "ru_to_gr", true⟩], true⟩
          (some 2)).outcome ≠ HandleOutcome.ack := by
  decide

/-- Witness for C6: a concrete mid-quiz session whose current answer has
already been processed (flag cleared); a duplicate delivery in that
window leaves it untouched. -/
theorem C6_witness :
    (⟨[questionA'], 1, [⟨"Глаголы", "ru_to_gr", true⟩], false⟩ :
        SessionState).awaiting = false
      ∧ (handle_answer
          ⟨[questionA'], 1, [⟨"Глаголы", "ru_to_gr", true⟩], false⟩
          (some 2)).session
        = ⟨[questionA'], 1, [⟨"Глаголы", "ru_to_gr", true⟩], false⟩ :=
  ⟨rfl, ((C6_duplicate_suppression_window
    ⟨[questionA'], 1, [⟨"Глаголы", "ru_to_gr", true⟩], false⟩
    (some 2)).1 rfl).1⟩

/-! ### Persistence — `_save_all` (bot.py 572-607) -/

/-- A `quiz_sessions` row (the completed-session record; `id` is the serial
key returned by `INSERT ... RETURNING id`). -/
structure QuizSessionRow where
  id : ℕ
  user : ℤ
  session_date : ℤ
  correct_answers : ℕ
  total_questions : ℕ
  deriving DecidableEq

/-- An `answers` audit-log row. -/
structure AnswerRow where
  user : ℤ
  session_id : ℕ
  topic : String
  qtype : String
  correct : Bool
  deriving DecidableEq

/-- A `topic_stats` row (per user, per topic). -/
structure StatStored where
  correct : ℤ
  total : ℤ
  last_seen : ℤ
  deriving DecidableEq

/-- The durable store touched by `_save_all`: the append-only
`quiz_sessions` and `answers` tables and the keyed `topic_stats` /
`topic_memory` tables. -/
structure DB where
  quizSessions : List QuizSessionRow
  answersLog : List AnswerRow
  topicStats : ℤ × String → Option StatStored
  topicMemory : ℤ × String → Option MemRow

/-- The `SELECT` of `_update_topic_memory_for_answer` projects the stored
row onto the four columns it reads. -/
def memPriorOf (r : MemRow) : MemPrior :=
  ⟨r.mastery, r.stability, r.review_count, r.lapses⟩

/-- The `topic_stats` upsert (bot.py 579-586): insert `(correct?1:0, 1,
today)` or increment `correct`/`total` and refresh `last_seen`. -/
def upsertTopicStat (user : ℤ) (topic : String) (correct : Bool) (today : ℤ)
    (stats : ℤ × String → Option StatStored) : ℤ × String → Option StatStored :=
  fun key =>
    if key = (user, topic) then
      match stats (user, topic) with
      | none => some ⟨if correct then 1 else 0, 1, today⟩
      | some r => some ⟨r.correct + (if correct then 1 else 0), r.total + 1, today⟩
    else stats key

/-- The `topic_memory` upsert performed by
`_update_topic_memory_for_answer`: read the prior row (if any) and write
back the full updated row. -/
def upsertTopicMemory (user : ℤ) (topic : String) (correct : Bool)
    (today : ℤ) (mem : ℤ × String → Option MemRow) :
    ℤ × String → Option MemRow :=
  fun key =>
    if key = (user, topic) then
      some (update_topic_memory_for_answer
        ((mem (user, topic)).map memPriorOf) correct today)
    else mem key

/-- The per-answer loop of `_save_all` (bot.py 600-607): for each answer,
upsert its `topic_stats` row, then update its `topic_memory` row.  The
`oracle` decides which durable-store command (numbered in issue order)
fails, modelling `PersistenceFailure`. -/
def saveAllLoop (oracle : ℕ → Bool) (user : ℤ) (today : ℤ) :
    List SessionAnswer → DB → ℕ → Except String DB
  | [], db, _ => .ok db
  | a :: rest, db, k =>
    if oracle k then .error "upsert topic_stats failed"
    else
      let db₁ := { db with
        topicStats := upsertTopicStat user a.topic a.correct today db.topicStats }
      if oracle (k + 1) then .error "upsert topic_memory failed"
      else
        let db₂ := { db₁ with
          topicMemory := upsertTopicMemory user a.topic a.correct today
            db₁.topicMemory }
        saveAllLoop oracle user today rest db₂ (k + 2)

/-- The body of the `conn.transaction()` block of `_save_all`
(bot.py 587-607): insert the `quiz_sessions` row, bulk-insert the raw
answer rows, then run the per-answer upsert loop.  Every durable write of
`_save_all` happens inside this single block. -/
def save_all_body (oracle : ℕ → Bool) (user : ℤ) (today : ℤ)
    (answers : List SessionAnswer) (db : DB) : Except String DB :=
  if oracle 0 then .error "insert quiz_sessions failed"
  else
    let sid := db.quizSessions.length
    let correct_count := (answers.filter (·.correct)).length
    let sessionRow : QuizSessionRow :=
      ⟨sid, user, today, correct_count, answers.length⟩
    let db₁ := { db with quizSessions := db.quizSessions ++ [sessionRow] }
    if oracle 1 then .error "insert answers failed"
    else
      let answerRows : List AnswerRow :=
        answers.map (fun a => ⟨user, sid, a.topic, a.qtype, a.correct⟩)
      let db₂ := { db₁ with answersLog := db₁.answersLog ++ answerRows }
      saveAllLoop oracle user today answers db₂ 2

/-- `_save_all` (bot.py 572-607): run the transaction body; on any failure
the transaction context manager rolls back, leaving the store unchanged
and surfacing the error. -/
def save_all (oracle : ℕ → Bool) (user : ℤ) (today : ℤ)
    (answers : List SessionAnswer) (db : DB) : DB × Option String :=
  match save_all_body oracle user today answers db with
  | .ok db' => (db', none)
  | .error e => (db, some e)

/-- The claim-level description of the per-topic `TopicStat` increments: a
left fold of the upsert over the session's answers. -/
def applyStats (user : ℤ) (today : ℤ) (answers : List SessionAnswer)
    (stats : ℤ × String → Option StatStored) : ℤ × String → Option StatStored :=
  answers.foldl (fun st a => upsertTopicStat user a.topic a.correct today st)
    stats

/-- The claim-level description of the per-topic memory updates: a left
fold of the memory upsert over the session's answers. -/
def applyMemory (user : ℤ) (today : ℤ) (answers : List SessionAnswer)
    (mem : ℤ × String → Option MemRow) : ℤ × String → Option MemRow :=
  answers.foldl (fun m a => upsertTopicMemory user a.topic a.correct today m)
    mem

/-- A successful run of the per-answer loop applies exactly the stat and
memory folds and touches nothing else. -/
theorem saveAllLoop_ok (oracle : ℕ → Bool) (user : ℤ) (today : ℤ) :
    ∀ (answers : List SessionAnswer) (db db' : DB) (k : ℕ),
    saveAllLoop oracle user today answers db k = .ok db' →
      db'.quizSessions = db.quizSessions
        ∧ db'.answersLog = db.answersLog
        ∧ db'.topicStats = applyStats user today answers db.topicStats
        ∧ db'.topicMemory = applyMemory user today answers db.topicMemory := by
  intro answers
  induction answers with
  | nil =>
    intro db db' k h
    simp only [saveAllLoop] at h
    cases h
    exact ⟨rfl, rfl, rfl, rfl⟩
  | cons a rest ih =>
    intro db db' k h
    simp only [saveAllLoop] at h
    split_ifs at h with h1 h2
    have := ih _ db' (k + 2) h
    refine ⟨this.1, this.2.1, ?_, ?_⟩
    · rw [this.2.2.1]; rfl
    · rw [this.2.2.2]; rfl

/-- C7. On quiz completion the `quiz_sessions` row, the raw per-answer
audit rows, the per-topic `TopicStat` increments and the per-topic memory
updates are committed atomically in one transaction: if any durable write
fails, none of them is applied (the store is unchanged and the error is
surfaced); on success all four groups are applied. -/
theorem C7_save_all_atomic (oracle : ℕ → Bool) (user : ℤ) (today : ℤ)
    (answers : List SessionAnswer) (db : DB) :
    (∀ e, (save_all oracle user today answers db).2 = some e →
        (save_all oracle user today answers db).1 = db)
    ∧ ((save_all oracle user today answers db).2 = none →
        (save_all oracle user today answers db).1.quizSessions
            = db.quizSessions ++ [⟨db.quizSessions.length, user, today,
                (answers.filter (·.correct)).length, answers.length⟩]
          ∧ (save_all oracle user today answers db).1.answersLog
            = db.answersLog ++ answers.map (fun a =>
                ⟨user, db.quizSessions.length, a.topic, a.qtype, a.correct⟩)
          ∧ (save_all oracle user today answers db).1.topicStats
            = applyStats user today answers db.topicStats
          ∧ (save_all oracle user today answers db).1.topicMemory
            = applyMemory user today answers db.topicMemory) := by
  constructor
  · intro e he
    cases hb : save_all_body oracle user today answers db with
    | ok db' =>
      have hred : save_all oracle user today answers db = (db', none) := by
        unfold save_all; rw [hb]
      rw [hred] at he; cases he
    | error e' =>
      have hred : save_all oracle user today answers db = (db, some e') := by
        unfold save_all; rw [hb]
      rw [hred]
  · intro hn
    cases hb : save_all_body oracle user today answers db with
    | error e' =>
      have hred : save_all oracle user today answers db = (db, some e') := by
        unfold save_all; rw [hb]
      rw [hred] at hn; cases hn
    | ok db' =>
      have hred : save_all oracle user today answers db = (db', none) := by
        unfold save_all; rw [hb]
      rw [hred]
      unfold save_all_body at hb
      split_ifs at hb with h1 h2
      have hsp := saveAllLoop_ok oracle user today answers _ db' 2 hb
      exact ⟨hsp.1, hsp.2.1, hsp.2.2.1, hsp.2.2.2⟩

/-- The empty durable store, used by the persistence witness. -/
def emptyDB : DB := ⟨[], [], fun _ => none, fun _ => none⟩

/-- Witness for C7: with a store whose very first write fails, `_save_all`
reports the error and leaves the store untouched. -/
theorem C7_witness :
    (save_all (fun _ => true) 7 100 [⟨"Глаголы", "ru_to_gr", true⟩]
        emptyDB).2 = some "insert quiz_sessions failed"
      ∧ (save_all (fun _ => true) 7 100 [⟨"Глаголы", "ru_to_gr", true⟩]
          emptyDB).1 = emptyDB :=
  ⟨rfl, (C7_save_all_atomic (fun _ => true) 7 100
      [⟨"Глаголы", "ru_to_gr", true⟩] emptyDB).1
    "insert quiz_sessions failed" rfl⟩

/-! ### TopicScheduler inputs (topics.py 38-107, bot.py 425-463)

`stats`, `topic_memory` and `session_dates` arrive as JSON-ish dicts whose
date fields are ISO strings parsed with `date.fromisoformat` under
`try/except ValueError`, with separate falsy checks for absent/empty
values.  A stored date is therefore one of: absent-or-empty (falsy),
present but unparseable, or a valid date. -/

/-- A date-valued dict entry: `missing` (absent, `None`, or `""` — falsy),
`bad` (non-empty but unparseable, raises `ValueError`), or a parsed date
as a day ordinal. -/
inductive DateVal where
  | missing
  | bad
  | iso (d : ℤ)
  deriving DecidableEq

/-- A `stats[topic]` dict: all-time `correct`/`total` counters and
`last_seen`. -/
structure TopicStatRow where
  correct : ℤ
  total : ℤ
  last_seen : DateVal
  deriving DecidableEq

/-- A `topic_memory[topic]` dict as read by the scheduler: each field can
be absent (`None`). -/
structure TopicMemRow where
  mastery : Option ℚ
  due_at : DateVal
  last_seen : DateVal
  review_count : Option ℤ
  lapses : Option ℤ
  deriving DecidableEq

/-- The scheduler's inputs: the two per-topic dicts (partial maps), the
session-date history list, and `date.today()`. -/
structure SchedInput where
  stats : String → Option TopicStatRow
  topic_memory : String → Option TopicMemRow
  session_dates : List DateVal
  today : ℤ

/-- `acc` (topics.py 57-59, bot.py 430-432): all-time accuracy, `0.0` when
the topic has no stats or a falsy total. -/
def acc (ctx : SchedInput) (t : String) : ℚ :=
  match ctx.stats t with
  | none => 0
  | some s => if s.total ≠ 0 then (s.correct : ℚ) / (s.total : ℚ) else 0

/-- `overdue_days` (topics.py 61-70, bot.py 434-443): days past the
topic's `due_at`, clamped at 0; 0 when absent or unparseable. -/
def overdue_days (ctx : SchedInput) (t : String) : ℤ :=
  match ctx.topic_memory t with
  | none => 0
  | some m =>
    match m.due_at with
    | .iso d => max (ctx.today - d) 0
    | _ => 0

/-- `last_seen_days` (topics.py 72-84, bot.py 445-457): days since the
topic was last seen, preferring the memory row and falling back to the
stats row when the memory value is falsy; 999 when absent/unparseable
(and *not* clamped at 0). -/
def last_seen_days (ctx : SchedInput) (t : String) : ℤ :=
  let last : DateVal :=
    match ctx.topic_memory t with
    | some m =>
      match m.last_seen with
      | .missing =>
        (match ctx.stats t with | some s => s.last_seen | none => .missing)
      | v => v
    | none =>
      (match ctx.stats t with | some s => s.last_seen | none => .missing)
  match last with
  | .iso d => ctx.today - d
  | _ => 999

/-- Membership in `seen_topics` (topics.py 86, bot.py 459): a positive
stat total. -/
def isSeen (ctx : SchedInput) (t : String) : Bool :=
  match ctx.stats t with
  | some s => s.total > 0
  | none => false

/-- `unseen_topics` (topics.py 87, bot.py 460). -/
def unseen_topics (ctx : SchedInput) : List String :=
  MASTER_TOPICS.filter (fun t => !(isSeen ctx t))

/-- `weak_topics` (topics.py 88, bot.py 461): seen, accuracy < 60%. -/
def weak_topics (ctx : SchedInput) : List String :=
  MASTER_TOPICS.filter (fun t => isSeen ctx t && decide (acc ctx t < 60/100))

/-- `medium_topics` (topics.py 89, bot.py 462): seen, 60% ≤ accuracy < 85%. -/
def medium_topics (ctx : SchedInput) : List String :=
  MASTER_TOPICS.filter (fun t => isSeen ctx t &&
    decide (60/100 ≤ acc ctx t) && decide (acc ctx t < 85/100))

/-- `strong_topics` (topics.py 90, bot.py 463): seen, accuracy ≥ 85%. -/
def strong_topics (ctx : SchedInput) : List String :=
  MASTER_TOPICS.filter (fun t => isSeen ctx t && decide (85/100 ≤ acc ctx t))

namespace Topics

/-- `days_since_last_session` (topics.py 48-55): days since the last entry
of `session_dates`, clamped at 0; 0 when the list is empty or the entry
does not parse. -/
def days_since_last_session (ctx : SchedInput) : ℤ :=
  match ctx.session_dates.getLast? with
  | none => 0
  | some (.iso d) => max (ctx.today - d) 0
  | some _ => 0

/-- `mastery` (topics.py 95-99): the stored mastery clamped to `[0,1]`,
else 0.25 for seen and 0.15 for unseen topics. -/
def mastery (ctx : SchedInput) (t : String) : ℚ :=
  match ctx.topic_memory t with
  | some m =>
    match m.mastery with
    | some v => max 0 (min 1 v)
    | none => if isSeen ctx t then 25/100 else 15/100
  | none => if isSeen ctx t then 25/100 else 15/100

/-- `lapse_rate` (topics.py 101-107): `lapses / review_count` clamped to
`[0,1]`, 0 when there are no reviews. -/
def lapse_rate (ctx : SchedInput) (t : String) : ℚ :=
  let reviews : ℤ :=
    match ctx.topic_memory t with | some m => m.review_count.getD 0 | none => 0
  let lapses : ℤ :=
    match ctx.topic_memory t with | some m => m.lapses.getD 0 | none => 0
  if reviews ≤ 0 then 0
  else max 0 (min 1 ((lapses : ℚ) / (reviews : ℚ)))

/-- `priority` (topics.py 109-120): the weighted spaced-repetition score. -/
def priority (ctx : SchedInput) (t : String) : ℚ :=
  let overdue_signal := min ((overdue_days ctx t : ℚ) / 14) (3/2)
  let recency_signal := min ((last_seen_days ctx t : ℚ) / 14) (3/2)
  let novelty_signal : ℚ := if t ∈ unseen_topics ctx then 25/100 else 0
  45/100 * overdue_signal + 30/100 * (1 - mastery ctx t)
    + 15/100 * lapse_rate ctx t + 10/100 * recency_signal + novelty_signal

/-- The sort key of `sort_pool` (topics.py 122-130):
`(-priority, acc or -acc, -last_seen_days)`, compared lexicographically as
Python compares tuples. -/
def sortKey (ctx : SchedInput) (weakest_first : Bool) (t : String) :
    Lex (ℚ × Lex (ℚ × ℚ)) :=
  toLex (-(priority ctx t),
    toLex ((if weakest_first then acc ctx t else -(acc ctx t)),
      -((last_seen_days ctx t : ℚ))))

/-- The key order underlying `sorted(pool, key=...)`. -/
def keyLE (ctx : SchedInput) (weakest_first : Bool) (a b : String) : Prop :=
  sortKey ctx weakest_first a ≤ sortKey ctx weakest_first b

instance (ctx : SchedInput) (wf : Bool) : DecidableRel (keyLE ctx wf) :=
  fun _ _ => inferInstanceAs (Decidable (_ ≤ _))

/-- `sort_pool` (topics.py 122-130): Python's `sorted` is a stable sort by
key, modelled by insertion sort with the (total, reflexive) key order. -/
def sort_pool (ctx : SchedInput) (pool : List String) (weakest_first : Bool) :
    List String :=
  List.insertionSort (keyLE ctx weakest_first) pool

/-- The `while` body of `fill_from_pool` (topics.py 138-145), with the
remaining quota `n` as fuel: cycle through the sorted pool, substituting
the next candidate when the previous scheduled topic would repeat and an
alternative exists. -/
def fillLoop (total : ℕ) (ordered : List String) :
    ℕ → ℕ → List String → List String
  | _, 0, seq => seq
  | i, n + 1, seq =>
    if seq.length < total ∧ ordered ≠ [] then
      let candidate₀ := ordered.getD (i % ordered.length) ""
      let candidate :=
        if seq ≠ [] ∧ 1 < ordered.length ∧ seq.getLast? = some candidate₀
        then ordered.getD ((i + 1) % ordered.length) ""
        else candidate₀
      fillLoop total ordered (i + 1) n (seq ++ [candidate])
    else seq

/-- `fill_from_pool` (topics.py 134-145): no-op on an exhausted quota or
empty pool, else run the cycle over the sorted pool. -/
def fill_from_pool (ctx : SchedInput) (total : ℕ) (seq : List String)
    (pool : List String) (n : ℤ) (weakest_first : Bool) : List String :=
  if n ≤ 0 ∨ pool = [] then seq
  else fillLoop total (sort_pool ctx pool weakest_first) 0 n.toNat seq

/-- `review_pool` (topics.py 148): the previously-seen master topics. -/
def review_pool (ctx : SchedInput) : List String :=
  MASTER_TOPICS.filter (fun t => isSeen ctx t)

/-- The forced review block (topics.py 147-150): in adaptive mode, when
the most recent session is ≥ 2 days old and some topic has been seen,
pre-fill `min(8, N)` slots from the seen topics. -/
def reviewStage (ctx : SchedInput) (total_questions : ℕ) : List String :=
  if ¬(ctx.session_dates.length < 3) ∧ 2 ≤ days_since_last_session ctx then
    if review_pool ctx ≠ [] then
      fill_from_pool ctx total_questions [] (review_pool ctx)
        (min 8 (total_questions : ℤ)) true
    else []
  else []

/-- The mode-specific allocation (topics.py 152-166): learning-mode
coverage or adaptive-mode accuracy quotas. -/
def mainStage (ctx : SchedInput) (total_questions : ℕ) (seq₁ : List String) :
    List String :=
  if ctx.session_dates.length < 3 then
    let s := fill_from_pool ctx total_questions seq₁ (unseen_topics ctx)
      (min 5 (total_questions : ℤ)) true
    fill_from_pool ctx total_questions s
      (MASTER_TOPICS.filter (fun t => t ∉ unseen_topics ctx))
      ((total_questions : ℤ) - s.length) true
  else
    let qweak := pyRound ((total_questions : ℚ) * (35/100))
    let qmed := pyRound ((total_questions : ℚ) * (25/100))
    let qstrong := pyRound ((total_questions : ℚ) * (10/100))
    let qunseen := (total_questions : ℤ) - qweak - qmed - qstrong
    let s₁ := fill_from_pool ctx total_questions seq₁ (weak_topics ctx)
      qweak true
    let s₂ := fill_from_pool ctx total_questions s₁ (medium_topics ctx)
      qmed true
    let s₃ := fill_from_pool ctx total_questions s₂ (strong_topics ctx)
      qstrong false
    fill_from_pool ctx total_questions s₃ (unseen_topics ctx) qunseen true

/-- The final safety net (topics.py 168-170): fill any remaining slots
from the full master list. -/
def safetyStage (ctx : SchedInput) (total_questions : ℕ)
    (seq₂ : List String) : List String :=
  if seq₂.length < total_questions then
    fill_from_pool ctx total_questions seq₂ MASTER_TOPICS
      ((total_questions : ℤ) - seq₂.length) true
  else seq₂

/-- `build_topic_sequence` (topics.py 38-172): the forced review block for
returning users, then the learning-mode or adaptive-mode allocation, then
the final safety net, truncated to `total_questions`. -/
def build_topic_sequence (ctx : SchedInput) (total_questions : ℕ) :
    List String :=
  (safetyStage ctx total_questions
    (mainStage ctx total_questions
      (reviewStage ctx total_questions))).take total_questions

end Topics

namespace BotSched

/-! The parallel copy of the scheduler inside `bot.py` (425-510).  It
shares `acc` / `overdue_days` / `last_seen_days` and the pool
classification verbatim with `topics.py`, but sorts pools by
`(-overdue_days, acc or -acc, -last_seen_days)` (no `priority`), has no
forced review block and no anti-repeat substitution, and applies
`random.shuffle` before returning. -/

/-- The sort key of `sort_pool` in `bot.py` (465-473). -/
def sortKey (ctx : SchedInput) (weakest_first : Bool) (t : String) :
    Lex (ℚ × Lex (ℚ × ℚ)) :=
  toLex (-((overdue_days ctx t : ℚ)),
    toLex ((if weakest_first then acc ctx t else -(acc ctx t)),
      -((last_seen_days ctx t : ℚ))))

/-- The key order of `bot.py`'s `sort_pool`. -/
def keyLE (ctx : SchedInput) (weakest_first : Bool) (a b : String) : Prop :=
  sortKey ctx weakest_first a ≤ sortKey ctx weakest_first b

instance (ctx : SchedInput) (wf : Bool) : DecidableRel (keyLE ctx wf) :=
  fun _ _ => inferInstanceAs (Decidable (_ ≤ _))

/-- `sort_pool` (bot.py 465-473). -/
def sort_pool (ctx : SchedInput) (pool : List String) (weakest_first : Bool) :
    List String :=
  List.insertionSort (keyLE ctx weakest_first) pool

/-- The `while` body of `fill_from_pool` in `bot.py` (481-485): plain
cycling, no anti-repeat substitution. -/
def fillLoop (total : ℕ) (ordered : List String) :
    ℕ → ℕ → List String → List String
  | _, 0, seq => seq
  | i, n + 1, seq =>
    if seq.length < total ∧ ordered ≠ [] then
      fillLoop total ordered (i + 1) n
        (seq ++ [ordered.getD (i % ordered.length) ""])
    else seq

/-- `fill_from_pool` (bot.py 477-485). -/
def fill_from_pool (ctx : SchedInput) (total : ℕ) (seq : List String)
    (pool : List String) (n : ℤ) (weakest_first : Bool) : List String :=
  if n ≤ 0 ∨ pool = [] then seq
  else fillLoop total (sort_pool ctx pool weakest_first) 0 n.toNat seq

/-- The mode-specific allocation of `bot.py` (487-504): learning-mode
coverage, or adaptive quotas followed by the adaptive branch's own safety
net. -/
def mainStage (ctx : SchedInput) (total_questions : ℕ) : List String :=
  if ctx.session_dates.length < 3 then
    let s := fill_from_pool ctx total_questions [] (unseen_topics ctx)
      (min 5 (total_questions : ℤ)) true
    fill_from_pool ctx total_questions s
      (MASTER_TOPICS.filter (fun t => t ∉ unseen_topics ctx))
      ((total_questions : ℤ) - s.length) true
  else
    let qweak := pyRound ((total_questions : ℚ) * (35/100))
    let qmed := pyRound ((total_questions : ℚ) * (25/100))
    let qstrong := pyRound ((total_questions : ℚ) * (10/100))
    let qunseen := (total_questions : ℤ) - qweak - qmed - qstrong
    let s₁ := fill_from_pool ctx total_questions [] (weak_topics ctx)
      qweak true
    let s₂ := fill_from_pool ctx total_questions s₁ (medium_topics ctx)
      qmed true
    let s₃ := fill_from_pool ctx total_questions s₂ (strong_topics ctx)
      qstrong false
    let s₄ := fill_from_pool ctx total_questions s₃ (unseen_topics ctx)
      qunseen true
    if s₄.length < total_questions then
      fill_from_pool ctx total_questions s₄ MASTER_TOPICS
        ((total_questions : ℤ) - s₄.length) true
    else s₄

/-- The final safety net of `bot.py` (506-507). -/
def safetyStage (ctx : SchedInput) (total_questions : ℕ)
    (seq₂ : List String) : List String :=
  if seq₂.length < total_questions then
    fill_from_pool ctx total_questions seq₂ MASTER_TOPICS
      ((total_questions : ℤ) - seq₂.length) true
  else seq₂

/-- `build_topic_sequence` (bot.py 425-510): learning or adaptive
allocation, the final safety net, then `random.shuffle` (a permutation
parameter) and truncation. -/
def build_topic_sequence (shuffle : List String → List String)
    (ctx : SchedInput) (total_questions : ℕ) : List String :=
  (shuffle (safetyStage ctx total_questions
    (mainStage ctx total_questions))).take total_questions

end BotSched

/-- Cycling indexes into a nonempty list always hit a member. -/
theorem getD_mod_mem (ordered : List String) (h : ordered ≠ []) (k : ℕ) :
    ordered.getD (k % ordered.length) "" ∈ ordered := by
  have hpos : 0 < ordered.length := List.length_pos.mpr h
  have hlt : k % ordered.length < ordered.length := Nat.mod_lt _ hpos
  rw [List.getD_eq_getElem _ _ hlt]
  exact List.getElem_mem hlt

namespace Topics

/-- The fill loop only appends to the sequence. -/
theorem fillLoop_append (total : ℕ) (ordered : List String) :
    ∀ (n i : ℕ) (seq : List String),
      ∃ tail, fillLoop total ordered i n seq = seq ++ tail := by
  intro n
  induction n with
  | zero => intro i seq; exact ⟨[], by simp [fillLoop]⟩
  | succ n ih =>
    intro i seq
    simp only [fillLoop]
    by_cases hc : seq.length < total ∧ ordered ≠ []
    · rw [if_pos hc]
      obtain ⟨t, ht⟩ := ih (i + 1)
        (seq ++ [if seq ≠ [] ∧ 1 < ordered.length ∧
            seq.getLast? = some (ordered.getD (i % ordered.length) "")
          then ordered.getD ((i + 1) % ordered.length) ""
          else ordered.getD (i % ordered.length) ""])
      rw [List.append_assoc] at ht
      exact ⟨_, ht⟩
    · rw [if_neg hc]
      exact ⟨[], by simp⟩

/-- Every element the fill loop adds comes from the (sorted) pool. -/
theorem fillLoop_subset (total : ℕ) (ordered : List String) :
    ∀ (n i : ℕ) (seq : List String) (t : String),
      t ∈ fillLoop total ordered i n seq → t ∈ seq ∨ t ∈ ordered := by
  intro n
  induction n with
  | zero => intro i seq t ht; exact Or.inl (by simpa [fillLoop] using ht)
  | succ n ih =>
    intro i seq t ht
    simp only [fillLoop] at ht
    by_cases hc : seq.length < total ∧ ordered ≠ []
    · rw [if_pos hc] at ht
      rcases ih (i + 1) _ t ht with h | h
      · rcases List.mem_append.mp h with h' | h'
        · exact Or.inl h'
        · right
          rcases List.mem_singleton.mp h' with rfl
          split <;> exact getD_mod_mem ordered hc.2 _
      · exact Or.inr h
    · rw [if_neg hc] at ht
      exact Or.inl ht

/-- Length of the fill loop over a nonempty pool: it appends until the
quota or the target length is exhausted. -/
theorem fillLoop_length (total : ℕ) (ordered : List String)
    (h : ordered ≠ []) :
    ∀ (n i : ℕ) (seq : List String),
      (fillLoop total ordered i n seq).length
        = max seq.length (min total (seq.length + n)) := by
  intro n
  induction n with
  | zero => intro i seq; simp [fillLoop]
  | succ n ih =>
    intro i seq
    simp only [fillLoop]
    by_cases hc : seq.length < total ∧ ordered ≠ []
    · rw [if_pos hc, ih (i + 1)]
      simp only [List.length_append, List.length_singleton]
      have := hc.1
      omega
    · rw [if_neg hc]
      have : ¬(seq.length < total) := fun hl => hc ⟨hl, h⟩
      omega

/-- `sort_pool` permutes its pool. -/
theorem sort_pool_perm (ctx : SchedInput) (pool : List String) (wf : Bool) :
    (sort_pool ctx pool wf).Perm pool :=
  List.perm_insertionSort _ _

/-- Sorting a nonempty pool yields a nonempty list. -/
theorem sort_pool_ne_nil (ctx : SchedInput) (pool : List String) (wf : Bool)
    (h : pool ≠ []) : sort_pool ctx pool wf ≠ [] := by
  intro hnil
  exact h (List.eq_nil_of_length_eq_zero
    (((sort_pool_perm ctx pool wf).length_eq).symm.trans
      (by rw [hnil]; rfl)))

/-- Length of `fill_from_pool` with a positive quota and nonempty pool. -/
theorem fill_from_pool_length (ctx : SchedInput) (total : ℕ)
    (seq pool : List String) (n : ℤ) (wf : Bool) (hp : pool ≠ [])
    (hn : 0 < n) :
    (fill_from_pool ctx total seq pool n wf).length
      = max seq.length (min total (seq.length + n.toNat)) := by
  unfold fill_from_pool
  rw [if_neg (by push_neg; exact ⟨by omega, hp⟩)]
  exact fillLoop_length total _ (sort_pool_ne_nil ctx pool wf hp) n.toNat 0 seq

/-- `fill_from_pool` never overshoots the target length. -/
theorem fill_from_pool_le (ctx : SchedInput) (total : ℕ)
    (seq pool : List String) (n : ℤ) (wf : Bool)
    (hle : seq.length ≤ total) :
    (fill_from_pool ctx total seq pool n wf).length ≤ total := by
  unfold fill_from_pool
  split_ifs with hg
  · exact hle
  · push_neg at hg
    rw [fillLoop_length total _ (sort_pool_ne_nil ctx pool wf hg.2) n.toNat 0 seq]
    omega

/-- Everything `fill_from_pool` adds comes from its pool. -/
theorem fill_from_pool_subset (ctx : SchedInput) (total : ℕ)
    (seq pool : List String) (n : ℤ) (wf : Bool) :
    ∀ t ∈ fill_from_pool ctx total seq pool n wf, t ∈ seq ∨ t ∈ pool := by
  intro t ht
  unfold fill_from_pool at ht
  split_ifs at ht with hg
  · exact Or.inl ht
  · rcases fillLoop_subset total _ n.toNat 0 seq t ht with h | h
    · exact Or.inl h
    · exact Or.inr ((sort_pool_perm ctx pool wf).subset h)

/-- `fill_from_pool` only appends. -/
theorem fill_from_pool_append (ctx : SchedInput) (total : ℕ)
    (seq pool : List String) (n : ℤ) (wf : Bool) :
    ∃ tail, fill_from_pool ctx total seq pool n wf = seq ++ tail := by
  unfold fill_from_pool
  split_ifs with hg
  · exact ⟨[], by simp⟩
  · exact fillLoop_append total _ n.toNat 0 seq

end Topics

namespace BotSched

/-- Every element the `bot.py` fill loop adds comes from the pool. -/
theorem bot_fillLoop_subset (total : ℕ) (ordered : List String) :
    ∀ (n i : ℕ) (seq : List String) (t : String),
      t ∈ fillLoop total ordered i n seq → t ∈ seq ∨ t ∈ ordered := by
  intro n
  induction n with
  | zero => intro i seq t ht; exact Or.inl (by simpa [fillLoop] using ht)
  | succ n ih =>
    intro i seq t ht
    simp only [fillLoop] at ht
    by_cases hc : seq.length < total ∧ ordered ≠ []
    · rw [if_pos hc] at ht
      rcases ih (i + 1) _ t ht with h | h
      · rcases List.mem_append.mp h with h' | h'
        · exact Or.inl h'
        · right
          rcases List.mem_singleton.mp h' with rfl
          exact getD_mod_mem ordered hc.2 _
      · exact Or.inr h
    · rw [if_neg hc] at ht
      exact Or.inl ht

/-- Length of the `bot.py` fill loop over a nonempty pool. -/
theorem bot_fillLoop_length (total : ℕ) (ordered : List String)
    (h : ordered ≠ []) :
    ∀ (n i : ℕ) (seq : List String),
      (fillLoop total ordered i n seq).length
        = max seq.length (min total (seq.length + n)) := by
  intro n
  induction n with
  | zero => intro i seq; simp [fillLoop]
  | succ n ih =>
    intro i seq
    simp only [fillLoop]
    by_cases hc : seq.length < total ∧ ordered ≠ []
    · rw [if_pos hc, ih (i + 1)]
      simp only [List.length_append, List.length_singleton]
      have := hc.1
      omega
    · rw [if_neg hc]
      have : ¬(seq.length < total) := fun hl => hc ⟨hl, h⟩
      omega

/-- `sort_pool` (bot.py) permutes its pool. -/
theorem bot_sort_pool_perm (ctx : SchedInput) (pool : List String) (wf : Bool) :
    (sort_pool ctx pool wf).Perm pool :=
  List.perm_insertionSort _ _

/-- Sorting a nonempty pool yields a nonempty list. -/
theorem bot_sort_pool_ne_nil (ctx : SchedInput) (pool : List String) (wf : Bool)
    (h : pool ≠ []) : sort_pool ctx pool wf ≠ [] := by
  intro hnil
  exact h (List.eq_nil_of_length_eq_zero
    (((bot_sort_pool_perm ctx pool wf).length_eq).symm.trans
      (by rw [hnil]; rfl)))

/-- Length of `fill_from_pool` (bot.py) with a positive quota and nonempty
pool. -/
theorem bot_fill_from_pool_length (ctx : SchedInput) (total : ℕ)
    (seq pool : List String) (n : ℤ) (wf : Bool) (hp : pool ≠ [])
    (hn : 0 < n) :
    (fill_from_pool ctx total seq pool n wf).length
      = max seq.length (min total (seq.length + n.toNat)) := by
  unfold fill_from_pool
  rw [if_neg (by push_neg; exact ⟨by omega, hp⟩)]
  exact bot_fillLoop_length total _ (bot_sort_pool_ne_nil ctx pool wf hp) n.toNat 0 seq

/-- `fill_from_pool` (bot.py) never overshoots the target length. -/
theorem bot_fill_from_pool_le (ctx : SchedInput) (total : ℕ)
    (seq pool : List String) (n : ℤ) (wf : Bool)
    (hle : seq.length ≤ total) :
    (fill_from_pool ctx total seq pool n wf).length ≤ total := by
  unfold fill_from_pool
  split_ifs with hg
  · exact hle
  · push_neg at hg
    rw [bot_fillLoop_length total _ (bot_sort_pool_ne_nil ctx pool wf hg.2) n.toNat 0 seq]
    omega

/-- `fill_from_pool` (bot.py) is a no-op on a non-positive quota. -/
theorem bot_fill_from_pool_nonpos (ctx : SchedInput) (total : ℕ)
    (seq pool : List String) (n : ℤ) (wf : Bool) (hn : n ≤ 0) :
    fill_from_pool ctx total seq pool n wf = seq := by
  unfold fill_from_pool
  rw [if_pos (Or.inl hn)]

/-- Everything `fill_from_pool` (bot.py) adds comes from its pool. -/
theorem bot_fill_from_pool_subset (ctx : SchedInput) (total : ℕ)
    (seq pool : List String) (n : ℤ) (wf : Bool) :
    ∀ t ∈ fill_from_pool ctx total seq pool n wf, t ∈ seq ∨ t ∈ pool := by
  intro t ht
  unfold fill_from_pool at ht
  split_ifs at ht with hg
  · exact Or.inl ht
  · rcases bot_fillLoop_subset total _ n.toNat 0 seq t ht with h | h
    · exact Or.inl h
    · exact Or.inr ((bot_sort_pool_perm ctx pool wf).subset h)

end BotSched

/-- The master topic list is nonempty. -/
theorem MASTER_TOPICS_ne_nil : MASTER_TOPICS ≠ [] := by
  unfold MASTER_TOPICS
  exact List.cons_ne_nil _ _

namespace Topics

/-- The review block never overshoots `N`. -/
theorem reviewStage_le (ctx : SchedInput) (N : ℕ) :
    (reviewStage ctx N).length ≤ N := by
  unfold reviewStage
  split_ifs with h1 h2
  · exact fill_from_pool_le _ _ _ _ _ _ (by simp)
  · simp
  · simp

/-- The mode allocation never overshoots `N`. -/
theorem mainStage_le (ctx : SchedInput) (N : ℕ) (seq₁ : List String)
    (h : seq₁.length ≤ N) : (mainStage ctx N seq₁).length ≤ N := by
  simp only [mainStage]
  split_ifs with hl
  · exact fill_from_pool_le _ _ _ _ _ _ (fill_from_pool_le _ _ _ _ _ _ h)
  · exact fill_from_pool_le _ _ _ _ _ _ (fill_from_pool_le _ _ _ _ _ _
      (fill_from_pool_le _ _ _ _ _ _ (fill_from_pool_le _ _ _ _ _ _ h)))

/-- The safety net tops the sequence up to exactly `N` slots. -/
theorem safetyStage_take_length (ctx : SchedInput) (N : ℕ)
    (seq₂ : List String) (h : seq₂.length ≤ N) :
    ((safetyStage ctx N seq₂).take N).length = N := by
  unfold safetyStage
  split_ifs with hlt
  · rw [List.length_take, fill_from_pool_length ctx N seq₂ MASTER_TOPICS _
      true MASTER_TOPICS_ne_nil (by omega)]
    omega
  · rw [List.length_take]
    omega

/-- The scheduler's plan always has exactly `N` entries. -/
theorem build_length (ctx : SchedInput) (N : ℕ) :
    (build_topic_sequence ctx N).length = N := by
  unfold build_topic_sequence
  exact safetyStage_take_length ctx N _
    (mainStage_le ctx N _ (reviewStage_le ctx N))

/-- Every topic in the review block is a master topic. -/
theorem reviewStage_subset (ctx : SchedInput) (N : ℕ) :
    ∀ t ∈ reviewStage ctx N, t ∈ MASTER_TOPICS := by
  intro t ht
  unfold reviewStage at ht
  split_ifs at ht with h1 h2
  · rcases fill_from_pool_subset _ _ _ _ _ _ t ht with h | h
    · simp at h
    · exact (List.mem_filter.mp h).1
  · simp at ht
  · simp at ht

/-- Every topic the mode allocation adds is a master topic. -/
theorem mainStage_subset (ctx : SchedInput) (N : ℕ) (seq₁ : List String)
    (hs : ∀ t ∈ seq₁, t ∈ MASTER_TOPICS) :
    ∀ t ∈ mainStage ctx N seq₁, t ∈ MASTER_TOPICS := by
  intro t ht
  simp only [mainStage] at ht
  split_ifs at ht with hl
  · rcases fill_from_pool_subset _ _ _ _ _ _ t ht with h | h
    · rcases fill_from_pool_subset _ _ _ _ _ _ t h with h' | h'
      · exact hs t h'
      · exact (List.mem_filter.mp h').1
    · exact (List.mem_filter.mp h).1
  · rcases fill_from_pool_subset _ _ _ _ _ _ t ht with h | h
    swap
    · exact (List.mem_filter.mp h).1
    rcases fill_from_pool_subset _ _ _ _ _ _ t h with h' | h'
    swap
    · exact (List.mem_filter.mp h').1
    rcases fill_from_pool_subset _ _ _ _ _ _ t h' with h'' | h''
    swap
    · exact (List.mem_filter.mp h'').1
    rcases fill_from_pool_subset _ _ _ _ _ _ t h'' with h₃ | h₃
    · exact hs t h₃
    · exact (List.mem_filter.mp h₃).1

/-- Every topic the safety net adds is a master topic. -/
theorem safetyStage_subset (ctx : SchedInput) (N : ℕ) (seq₂ : List String)
    (hs : ∀ t ∈ seq₂, t ∈ MASTER_TOPICS) :
    ∀ t ∈ safetyStage ctx N seq₂, t ∈ MASTER_TOPICS := by
  intro t ht
  unfold safetyStage at ht
  split_ifs at ht with hlt
  · rcases fill_from_pool_subset _ _ _ _ _ _ t ht with h | h
    · exact hs t h
    · exact h
  · exact hs t ht

/-- Every topic of the plan is a master topic. -/
theorem build_subset (ctx : SchedInput) (N : ℕ) :
    ∀ t ∈ build_topic_sequence ctx N, t ∈ MASTER_TOPICS := by
  intro t ht
  unfold build_topic_sequence at ht
  exact safetyStage_subset ctx N _
    (mainStage_subset ctx N _ (reviewStage_subset ctx N)) t
    (List.take_subset _ _ ht)

end Topics

namespace BotSched

/-- The mode allocation of `bot.py` never overshoots `N`. -/
theorem bot_mainStage_le (ctx : SchedInput) (N : ℕ) :
    (mainStage ctx N).length ≤ N := by
  simp only [mainStage]
  split_ifs with hl
  · exact bot_fill_from_pool_le _ _ _ _ _ _
      (bot_fill_from_pool_le _ _ _ _ _ _ (by simp))
  case _ hs =>
    exact bot_fill_from_pool_le _ _ _ _ _ _ (bot_fill_from_pool_le _ _ _ _ _ _
      (bot_fill_from_pool_le _ _ _ _ _ _ (bot_fill_from_pool_le _ _ _ _ _ _
        (bot_fill_from_pool_le _ _ _ _ _ _ (by simp)))))
  case _ hs =>
    exact bot_fill_from_pool_le _ _ _ _ _ _ (bot_fill_from_pool_le _ _ _ _ _ _
      (bot_fill_from_pool_le _ _ _ _ _ _ (bot_fill_from_pool_le _ _ _ _ _ _
        (by simp))))

/-- The `bot.py` safety net tops the sequence up to exactly `N` slots. -/
theorem bot_safetyStage_length (ctx : SchedInput) (N : ℕ) (seq₂ : List String)
    (h : seq₂.length ≤ N) : (safetyStage ctx N seq₂).length = N := by
  unfold safetyStage
  split_ifs with hlt
  · rw [bot_fill_from_pool_length ctx N seq₂ MASTER_TOPICS _ true
      MASTER_TOPICS_ne_nil (by omega)]
    omega
  · omega

/-- The `bot.py` plan always has exactly `N` entries, for any shuffle that
permutes its input. -/
theorem bot_build_length (shuffle : List String → List String)
    (hsh : ∀ l, (shuffle l).Perm l) (ctx : SchedInput) (N : ℕ) :
    (build_topic_sequence shuffle ctx N).length = N := by
  unfold build_topic_sequence
  rw [List.length_take, (hsh _).length_eq,
    bot_safetyStage_length ctx N _ (bot_mainStage_le ctx N)]
  omega

/-- The four quota fills of the adaptive branch stay within the master
topics. -/
theorem bot_quotaFills_subset (ctx : SchedInput) (N : ℕ)
    (qweak qmed qstrong qunseen : ℤ) :
    ∀ t ∈ fill_from_pool ctx N
        (fill_from_pool ctx N
          (fill_from_pool ctx N
            (fill_from_pool ctx N [] (weak_topics ctx) qweak true)
            (medium_topics ctx) qmed true)
          (strong_topics ctx) qstrong false)
        (unseen_topics ctx) qunseen true, t ∈ MASTER_TOPICS := by
  intro t ht
  rcases bot_fill_from_pool_subset _ _ _ _ _ _ t ht with h | h
  swap
  · exact (List.mem_filter.mp h).1
  rcases bot_fill_from_pool_subset _ _ _ _ _ _ t h with h' | h'
  swap
  · exact (List.mem_filter.mp h').1
  rcases bot_fill_from_pool_subset _ _ _ _ _ _ t h' with h'' | h''
  swap
  · exact (List.mem_filter.mp h'').1
  rcases bot_fill_from_pool_subset _ _ _ _ _ _ t h'' with h₃ | h₃
  · simp at h₃
  · exact (List.mem_filter.mp h₃).1

/-- Every topic the `bot.py` mode allocation emits is a master topic. -/
theorem bot_mainStage_subset (ctx : SchedInput) (N : ℕ) :
    ∀ t ∈ mainStage ctx N, t ∈ MASTER_TOPICS := by
  intro t ht
  simp only [mainStage] at ht
  split_ifs at ht with hl hs
  · rcases bot_fill_from_pool_subset _ _ _ _ _ _ t ht with h | h
    swap
    · exact (List.mem_filter.mp h).1
    rcases bot_fill_from_pool_subset _ _ _ _ _ _ t h with h' | h'
    · simp at h'
    · exact (List.mem_filter.mp h').1
  · rcases bot_fill_from_pool_subset _ _ _ _ _ _ t ht with h | h
    · exact bot_quotaFills_subset ctx N _ _ _ _ t h
    · exact h
  · exact bot_quotaFills_subset ctx N _ _ _ _ t ht

/-- Every topic the `bot.py` safety net adds is a master topic. -/
theorem bot_safetyStage_subset (ctx : SchedInput) (N : ℕ) (seq₂ : List String)
    (hs : ∀ t ∈ seq₂, t ∈ MASTER_TOPICS) :
    ∀ t ∈ safetyStage ctx N seq₂, t ∈ MASTER_TOPICS := by
  intro t ht
  unfold safetyStage at ht
  split_ifs at ht with hlt
  · rcases bot_fill_from_pool_subset _ _ _ _ _ _ t ht with h | h
    · exact hs t h
    · exact h
  · exact hs t ht

/-- Every topic of the `bot.py` plan is a master topic. -/
theorem bot_build_subset (shuffle : List String → List String)
    (hsh : ∀ l, (shuffle l).Perm l) (ctx : SchedInput) (N : ℕ) :
    ∀ t ∈ build_topic_sequence shuffle ctx N, t ∈ MASTER_TOPICS := by
  intro t ht
  unfold build_topic_sequence at ht
  exact bot_safetyStage_subset ctx N _ (bot_mainStage_subset ctx N) t
    ((hsh _).subset (List.take_subset _ _ ht))

end BotSched

/-- C2. For every input — empty stats and memory included — and every
`N ≥ 1`, the topic scheduler returns exactly `N` topic labels, each a
member of the fixed `MASTER_TOPICS` list; no slot is ever left unfilled.
Proved for both the `topics.py` scheduler and the parallel copy inside
`bot.py` (the latter for every shuffle that permutes its input). -/
theorem C2_plan_exact_N_master_topics (ctx : SchedInput) (N : ℕ)
    (_hN : 1 ≤ N) (shuffle : List String → List String)
    (hsh : ∀ l, (shuffle l).Perm l) :
    ((Topics.build_topic_sequence ctx N).length = N
        ∧ ∀ t ∈ Topics.build_topic_sequence ctx N, t ∈ MASTER_TOPICS)
      ∧ ((BotSched.build_topic_sequence shuffle ctx N).length = N
        ∧ ∀ t ∈ BotSched.build_topic_sequence shuffle ctx N,
            t ∈ MASTER_TOPICS) :=
  ⟨⟨Topics.build_length ctx N, Topics.build_subset ctx N⟩,
    ⟨BotSched.bot_build_length shuffle hsh ctx N,
      BotSched.bot_build_subset shuffle hsh ctx N⟩⟩

/-- A user with no history at all: empty stats, empty memory, no session
dates. -/
def emptyCtx : SchedInput := ⟨fun _ => none, fun _ => none, [], 0⟩

/-- Witness for C2: the empty-history user asking for a 20-question quiz
gets exactly 20 master-topic slots from both schedulers (identity
shuffle). -/
theorem C2_witness :
    (Topics.build_topic_sequence emptyCtx 20).length = 20
      ∧ (BotSched.build_topic_sequence id emptyCtx 20).length = 20 :=
  ⟨(C2_plan_exact_N_master_topics emptyCtx 20 (by decide) id
      (fun l => List.Perm.refl l)).1.1,
    (C2_plan_exact_N_master_topics emptyCtx 20 (by decide) id
      (fun l => List.Perm.refl l)).2.1⟩

/-- The key order of `topics.py`'s `sort_pool` orders by descending
priority: a key-smaller topic has a priority at least as large. -/
theorem keyLE_priority_ge (ctx : SchedInput) (wf : Bool) (a b : String)
    (h : Topics.keyLE ctx wf a b) :
    Topics.priority ctx b ≤ Topics.priority ctx a := by
  unfold Topics.keyLE Topics.sortKey at h
  rcases (Prod.Lex.le_iff _ _).mp h with h1 | ⟨h1, _⟩
  · simp only at h1
    linarith
  · simp only at h1
    linarith

/-- C9. In adaptive mode the scheduler orders every pool by descending
priority score: `sort_pool` permutes its pool, its output is pairwise
sorted by non-increasing `priority`, and for master topics `priority`
equals the claimed weighted formula
`0.45·min(overdue/14, 1.5) + 0.30·(1 − mastery) + 0.15·lapseRate +
0.10·min(lastSeen/14, 1.5) + 0.25·[unseen]`, where `lapseRate` is
`lapses / reviewCount` (0 without reviews) whenever the stored row
satisfies `0 ≤ lapses ≤ reviewCount`. -/
theorem C9_pool_ordered_by_priority (ctx : SchedInput) (pool : List String)
    (wf : Bool) :
    (Topics.sort_pool ctx pool wf).Perm pool
      ∧ (Topics.sort_pool ctx pool wf).Pairwise
          (fun a b => Topics.priority ctx b ≤ Topics.priority ctx a)
      ∧ (∀ t ∈ MASTER_TOPICS, Topics.priority ctx t
          = 45/100 * min ((overdue_days ctx t : ℚ) / 14) (3/2)
            + 30/100 * (1 - Topics.mastery ctx t)
            + 15/100 * Topics.lapse_rate ctx t
            + 10/100 * min ((last_seen_days ctx t : ℚ) / 14) (3/2)
            + (if isSeen ctx t then 0 else 25/100))
      ∧ (∀ (t : String) (m : TopicMemRow), ctx.topic_memory t = some m →
          0 ≤ m.lapses.getD 0 → m.lapses.getD 0 ≤ m.review_count.getD 0 →
          Topics.lapse_rate ctx t
            = if m.review_count.getD 0 ≤ 0 then 0
              else (m.lapses.getD 0 : ℚ) / (m.review_count.getD 0 : ℚ)) := by
  refine ⟨Topics.sort_pool_perm ctx pool wf, ?_, ?_, ?_⟩
  · have hs : (Topics.sort_pool ctx pool wf).Pairwise (Topics.keyLE ctx wf) := by
      letI : IsTotal String (Topics.keyLE ctx wf) := ⟨fun a b => le_total _ _⟩
      letI : IsTrans String (Topics.keyLE ctx wf) :=
        ⟨fun _ _ _ h₁ h₂ => le_trans h₁ h₂⟩
      exact List.sorted_insertionSort _ _
    exact hs.imp (fun hab => keyLE_priority_ge ctx wf _ _ hab)
  · intro t hmem
    unfold Topics.priority
    have hun : t ∈ unseen_topics ctx ↔ ¬ isSeen ctx t = true := by
      unfold unseen_topics
      rw [List.mem_filter]
      simp [hmem]
    by_cases hseen : isSeen ctx t = true
    · rw [if_neg (fun hin => (hun.mp hin) hseen), if_pos hseen]
    · rw [if_pos (hun.mpr hseen), if_neg hseen]
  · intro t m hm hl0 hlr
    have hred : Topics.lapse_rate ctx t
        = if m.review_count.getD 0 ≤ 0 then 0
          else max 0 (min 1
            ((m.lapses.getD 0 : ℚ) / (m.review_count.getD 0 : ℚ))) := by
      unfold Topics.lapse_rate
      rw [hm]
    rw [hred]
    split_ifs with hrev
    · rfl
    · push_neg at hrev
      have h0 : (0 : ℚ) < (m.review_count.getD 0 : ℚ) := by
        exact_mod_cast hrev
      have hle1 : ((m.lapses.getD 0 : ℚ) / (m.review_count.getD 0 : ℚ)) ≤ 1 := by
        rw [div_le_one h0]
        exact_mod_cast hlr
      have hge0 : (0 : ℚ) ≤ (m.lapses.getD 0 : ℚ) / (m.review_count.getD 0 : ℚ) :=
        div_nonneg (by exact_mod_cast hl0) (le_of_lt h0)
      rw [min_eq_right hle1, max_eq_right hge0]

/-- A returning user with one reviewed topic, used by the priority
witness. -/
def ctxC9 : SchedInput :=
  ⟨fun t => if t = "Глаголы" then some ⟨3, 4, .iso 8⟩ else none,
   fun t => if t = "Глаголы"
     then some ⟨some (1/2), .iso 5, .iso 8, some 10, some 5⟩ else none,
   [], 10⟩

/-- Witness for C9: `sort_pool` permutes a concrete two-topic pool, and
the lapse rate of a topic with 5 lapses over 10 reviews is 1/2. -/
theorem C9_witness :
    (Topics.sort_pool ctxC9 ["Глаголы", "Артикли"] true).Perm
        ["Глаголы", "Артикли"]
      ∧ Topics.lapse_rate ctxC9 "Глаголы" = 1/2 := by
  refine ⟨(C9_pool_ordered_by_priority ctxC9 ["Глаголы", "Артикли"] true).1, ?_⟩
  have h := (C9_pool_ordered_by_priority ctxC9 [] true).2.2.2 "Глаголы"
    ⟨some (1/2), .iso 5, .iso 8, some 10, some 5⟩ rfl (by decide) (by decide)
  rw [h]
  norm_num

/-- The master topic list has no duplicates. -/
theorem MASTER_TOPICS_nodup : MASTER_TOPICS.Nodup := by decide

/-- Appending an append is appending. -/
theorem exists_append_trans {α : Type} {a b c : List α}
    (h1 : ∃ t, b = a ++ t) (h2 : ∃ t, c = b ++ t) : ∃ t, c = a ++ t := by
  obtain ⟨t1, rfl⟩ := h1
  obtain ⟨t2, rfl⟩ := h2
  exact ⟨t1 ++ t2, by rw [List.append_assoc]⟩

namespace Topics

/-- Starting from a cyclically-built prefix of a duplicate-free pool, the
fill loop continues the cycle verbatim: the anti-repeat substitution never
fires, because consecutive cycle positions of a duplicate-free list always
differ (and a singleton pool disables the substitution). -/
theorem fillLoop_cycle (total : ℕ) (ordered : List String)
    (hnd : ordered.Nodup) (hne : ordered ≠ []) :
    ∀ (n k : ℕ), k + n ≤ total →
      fillLoop total ordered k n
          ((List.range k).map (fun j => ordered.getD (j % ordered.length) ""))
        = (List.range (k + n)).map
            (fun j => ordered.getD (j % ordered.length) "") := by
  intro n
  induction n with
  | zero => intro k h; simp [fillLoop]
  | succ n ih =>
    intro k hk
    have hlenpos : 0 < ordered.length := List.length_pos.mpr hne
    simp only [fillLoop]
    rw [if_pos (by
      refine ⟨?_, hne⟩
      rw [List.length_map, List.length_range]
      omega)]
    have hnosub : ¬((List.range k).map
          (fun j => ordered.getD (j % ordered.length) "") ≠ []
        ∧ 1 < ordered.length
        ∧ ((List.range k).map
            (fun j => ordered.getD (j % ordered.length) "")).getLast?
          = some (ordered.getD (k % ordered.length) "")) := by
      rintro ⟨hne', hlen1, hlast⟩
      cases k with
      | zero => simp at hne'
      | succ k' =>
        have hconcat : (List.range (k' + 1)).map
            (fun j => ordered.getD (j % ordered.length) "")
            = (List.range k').map
                (fun j => ordered.getD (j % ordered.length) "")
              ++ [ordered.getD (k' % ordered.length) ""] := by
          rw [List.range_succ, List.map_append]
          rfl
        rw [hconcat, List.getLast?_concat] at hlast
        have hval : ordered.getD (k' % ordered.length) ""
            = ordered.getD ((k' + 1) % ordered.length) "" :=
          Option.some.inj hlast
        have hik : k' % ordered.length ≠ (k' + 1) % ordered.length := by
          intro heq
          have hL1 : ordered.length = 1 := Nat.dvd_one.mp
            (by simpa using (Nat.modEq_iff_dvd' (Nat.le_succ k')).mp heq)
          omega
        have h1 : k' % ordered.length < ordered.length := Nat.mod_lt _ hlenpos
        have h2 : (k' + 1) % ordered.length < ordered.length :=
          Nat.mod_lt _ hlenpos
        rw [List.getD_eq_getElem _ _ h1, List.getD_eq_getElem _ _ h2] at hval
        have hfin : (⟨k' % ordered.length, h1⟩ : Fin ordered.length)
            = ⟨(k' + 1) % ordered.length, h2⟩ :=
          hnd.get_inj_iff.mp (by simpa using hval)
        exact hik (congrArg Fin.val hfin)
    rw [if_neg hnosub]
    have happ : ((List.range k).map
          (fun j => ordered.getD (j % ordered.length) ""))
          ++ [ordered.getD (k % ordered.length) ""]
        = (List.range (k + 1)).map
            (fun j => ordered.getD (j % ordered.length) "") := by
      rw [List.range_succ, List.map_append]
      rfl
    rw [happ, ih (k + 1) (by omega)]
    have harith : k + 1 + n = k + (n + 1) := by omega
    rw [harith]

end Topics

/-- Looking up a known `getElem?` value through `getD`. -/
theorem getD_of_getElem? {l : List String} {i : ℕ} {x : String}
    (h : l[i]? = some x) : l.getD i "" = x := by
  obtain ⟨hlt, hval⟩ := List.getElem?_eq_some_iff.mp h
  rw [List.getD_eq_getElem _ _ hlt]
  exact hval

namespace Topics

/-- `sort_pool` output is pairwise sorted by non-increasing priority. -/
theorem sort_pool_pairwise_priority (ctx : SchedInput) (pool : List String)
    (wf : Bool) :
    (sort_pool ctx pool wf).Pairwise
      (fun a b => priority ctx b ≤ priority ctx a) := by
  have hs : (sort_pool ctx pool wf).Pairwise (keyLE ctx wf) := by
    letI : IsTotal String (keyLE ctx wf) := ⟨fun a b => le_total _ _⟩
    letI : IsTrans String (keyLE ctx wf) :=
      ⟨fun _ _ _ h₁ h₂ => le_trans h₁ h₂⟩
    exact List.sorted_insertionSort _ _
  exact hs.imp (fun hab => keyLE_priority_ge _ _ _ _ hab)

/-- The mode allocation only appends to the review block. -/
theorem mainStage_append (ctx : SchedInput) (N : ℕ) (seq₁ : List String) :
    ∃ tail, mainStage ctx N seq₁ = seq₁ ++ tail := by
  simp only [mainStage]
  split_ifs with hl
  · exact exists_append_trans (fill_from_pool_append _ _ _ _ _ _)
      (fill_from_pool_append _ _ _ _ _ _)
  · exact exists_append_trans (exists_append_trans (exists_append_trans
      (fill_from_pool_append _ _ _ _ _ _) (fill_from_pool_append _ _ _ _ _ _))
      (fill_from_pool_append _ _ _ _ _ _)) (fill_from_pool_append _ _ _ _ _ _)

/-- The safety net only appends. -/
theorem safetyStage_append (ctx : SchedInput) (N : ℕ) (seq₂ : List String) :
    ∃ tail, safetyStage ctx N seq₂ = seq₂ ++ tail := by
  unfold safetyStage
  split_ifs with hlt
  · exact fill_from_pool_append _ _ _ _ _ _
  · exact ⟨[], by simp⟩

/-- Under the review-block conditions the review stage is exactly the
first `min 8 N` steps of the cycle over the sorted seen-topic pool. -/
theorem reviewStage_cycle (ctx : SchedInput) (N : ℕ)
    (hlm : ¬(ctx.session_dates.length < 3))
    (hdays : 2 ≤ days_since_last_session ctx)
    (hpool : review_pool ctx ≠ []) (hN : 1 ≤ N) :
    reviewStage ctx N = (List.range (min 8 N)).map
      (fun j => (sort_pool ctx (review_pool ctx) true).getD
        (j % (sort_pool ctx (review_pool ctx) true).length) "") := by
  unfold reviewStage
  rw [if_pos ⟨hlm, hdays⟩, if_pos hpool]
  unfold fill_from_pool
  rw [if_neg (by
    push_neg
    constructor
    · omega
    · exact hpool)]
  have hnd : (sort_pool ctx (review_pool ctx) true).Nodup :=
    ((sort_pool_perm ctx (review_pool ctx) true).nodup_iff).mpr
      (MASTER_TOPICS_nodup.filter _)
  have hne := sort_pool_ne_nil ctx (review_pool ctx) true hpool
  have hcyc := fillLoop_cycle N (sort_pool ctx (review_pool ctx) true)
    hnd hne (min 8 (N : ℤ)).toNat 0 (by omega)
  simp only [List.range_zero, List.map_nil, Nat.zero_add] at hcyc
  rw [hcyc]
  have harith : (min 8 (N : ℤ)).toNat = min 8 N := by omega
  rw [harith]

end Topics

/-- C8. In adaptive mode (≥ 3 historical session dates), when the most
recent session was ≥ 2 days ago and some topic has been seen, the first
`min 8 N` slots of the (pre-shuffle) plan cycle through the seen-topic
pool: slot `i` is entry `i mod |pool|` of the pool sorted by descending
priority, so each of these slots holds a previously-seen topic. -/
theorem C8_forced_review_block (ctx : SchedInput) (N : ℕ)
    (hlm : ¬(ctx.session_dates.length < 3))
    (hdays : 2 ≤ Topics.days_since_last_session ctx)
    (hpool : Topics.review_pool ctx ≠ []) :
    (∀ i < min 8 N, (Topics.build_topic_sequence ctx N).getD i ""
        = (Topics.sort_pool ctx (Topics.review_pool ctx) true).getD
            (i % (Topics.sort_pool ctx (Topics.review_pool ctx) true).length)
            "")
      ∧ (∀ i < min 8 N,
          isSeen ctx ((Topics.build_topic_sequence ctx N).getD i "") = true)
      ∧ (Topics.sort_pool ctx (Topics.review_pool ctx) true).Perm
          (Topics.review_pool ctx)
      ∧ (Topics.sort_pool ctx (Topics.review_pool ctx) true).Pairwise
          (fun a b => Topics.priority ctx b ≤ Topics.priority ctx a) := by
  have hne := Topics.sort_pool_ne_nil ctx (Topics.review_pool ctx) true hpool
  have hcycmem : ∀ i : ℕ,
      isSeen ctx ((Topics.sort_pool ctx (Topics.review_pool ctx) true).getD
        (i % (Topics.sort_pool ctx (Topics.review_pool ctx) true).length) "")
        = true := by
    intro i
    have hmem := getD_mod_mem _ hne i
    have hmem' := (Topics.sort_pool_perm ctx (Topics.review_pool ctx)
      true).subset hmem
    exact (List.mem_filter.mp hmem').2
  by_cases hN0 : N = 0
  · subst hN0
    refine ⟨?_, ?_, Topics.sort_pool_perm _ _ _,
      Topics.sort_pool_pairwise_priority _ _ _⟩ <;> intro i hi <;> omega
  · have hN : 1 ≤ N := by omega
    have hblock : ∀ i < min 8 N,
        (Topics.build_topic_sequence ctx N).getD i ""
          = (Topics.sort_pool ctx (Topics.review_pool ctx) true).getD
              (i % (Topics.sort_pool ctx
                (Topics.review_pool ctx) true).length) "" := by
      intro i hi
      obtain ⟨t1, h1⟩ := Topics.mainStage_append ctx N
        (Topics.reviewStage ctx N)
      obtain ⟨t2, h2⟩ := Topics.safetyStage_append ctx N
        (Topics.mainStage ctx N (Topics.reviewStage ctx N))
      have hb : Topics.build_topic_sequence ctx N
          = ((Topics.reviewStage ctx N ++ (t1 ++ t2)).take N) := by
        unfold Topics.build_topic_sequence
        rw [h2, h1, List.append_assoc]
      rw [hb, Topics.reviewStage_cycle ctx N hlm hdays hpool hN]
      apply getD_of_getElem?
      rw [List.getElem?_take_of_lt (by omega),
        List.getElem?_append_left (by
          rw [List.length_map, List.length_range]
          omega),
        List.getElem?_map, List.getElem?_range hi]
      rfl
    refine ⟨hblock, ?_, Topics.sort_pool_perm _ _ _,
      Topics.sort_pool_pairwise_priority _ _ _⟩
    intro i hi
    rw [hblock i hi]
    exact hcycmem i

/-- A returning user: three session dates, the last one 3 days ago, and
one previously-seen topic. -/
def ctxC8 : SchedInput :=
  ⟨fun t => if t = "Глаголы" then some ⟨2, 5, .iso 7⟩ else none,
   fun _ => none, [.iso 1, .iso 4, .iso 7], 10⟩

/-- Witness for C8: the returning user's 3-question plan opens with a
previously-seen topic. -/
theorem C8_witness :
    ¬(ctxC8.session_dates.length < 3)
      ∧ 2 ≤ Topics.days_since_last_session ctxC8
      ∧ Topics.review_pool ctxC8 ≠ []
      ∧ isSeen ctxC8 ((Topics.build_topic_sequence ctxC8 3).getD 0 "")
        = true := by
  refine ⟨by decide, by decide, by decide, ?_⟩
  exact (C8_forced_review_block ctxC8 3 (by decide) (by decide)
    (by decide)).2.1 0 (by decide)

/-- A returning user for the `bot.py` scheduler: three session dates, the
last 3 days ago, one seen topic at 70% accuracy (medium pool). -/
def ctxC8bot : SchedInput :=
  ⟨fun t => if t = "Глаголы" then some ⟨7, 10, .iso 7⟩ else none,
   fun _ => none, [.iso 1, .iso 4, .iso 7], 10⟩

/-- C8 counterexample: the scheduler the quiz flow actually calls —
`build_topic_sequence` in `bot.py` (invoked on quiz start; `bot.py` never
imports `topics.py`) — has no forced review block.  For a user in
adaptive mode whose last session was 3 days ago, with a seen topic
available for review, the first of the `min 8 N` claimed review slots of
the pre-shuffle plan (the identity shuffle exposes the pre-shuffle order;
here N = 1, where every accuracy quota rounds to 0 and the slot falls to
the unseen pool) holds a topic that has never been seen — refuting the
claim that those slots are filled exclusively from previously-seen
topics. -/
theorem C8_counterexample :
    ¬(ctxC8bot.session_dates.length < 3)
      ∧ 2 ≤ Topics.days_since_last_session ctxC8bot
      ∧ Topics.review_pool ctxC8bot ≠ []
      ∧ (0 : ℕ) < min 8 1
      ∧ isSeen ctxC8bot
          ((BotSched.build_topic_sequence id ctxC8bot 1).getD 0 "") = false := by
  refine ⟨by decide, by decide, by decide, by decide, ?_⟩
  have hq1 : pyRound (((1 : ℕ) : ℚ) * (35/100)) = 0 := by
    unfold pyRound
    norm_num
  have hq2 : pyRound (((1 : ℕ) : ℚ) * (25/100)) = 0 := by
    unfold pyRound
    norm_num
  have hq3 : pyRound (((1 : ℕ) : ℚ) * (10/100)) = 0 := by
    unfold pyRound
    norm_num
  have hun_ne : unseen_topics ctxC8bot ≠ [] := by decide
  have hlen4 : (BotSched.fill_from_pool ctxC8bot 1 [] (unseen_topics ctxC8bot)
      (((1 : ℕ) : ℤ) - 0 - 0 - 0) true).length = 1 := by
    rw [BotSched.bot_fill_from_pool_length ctxC8bot 1 [] _ _ true hun_ne
      (by norm_num)]
    decide
  have hmain : BotSched.mainStage ctxC8bot 1
      = BotSched.fill_from_pool ctxC8bot 1 [] (unseen_topics ctxC8bot)
          (((1 : ℕ) : ℤ) - 0 - 0 - 0) true := by
    simp only [BotSched.mainStage]
    rw [if_neg (by decide), hq1, hq2, hq3]
    rw [BotSched.bot_fill_from_pool_nonpos ctxC8bot 1 []
        (weak_topics ctxC8bot) 0 true le_rfl,
      BotSched.bot_fill_from_pool_nonpos ctxC8bot 1 []
        (medium_topics ctxC8bot) 0 true le_rfl,
      BotSched.bot_fill_from_pool_nonpos ctxC8bot 1 []
        (strong_topics ctxC8bot) 0 false le_rfl]
    rw [if_neg (by rw [hlen4]; omega)]
  have hsafety : BotSched.safetyStage ctxC8bot 1 (BotSched.mainStage ctxC8bot 1)
      = BotSched.mainStage ctxC8bot 1 := by
    unfold BotSched.safetyStage
    rw [if_neg (by rw [hmain, hlen4]; omega)]
  have hbuild : BotSched.build_topic_sequence id ctxC8bot 1
      = BotSched.fill_from_pool ctxC8bot 1 [] (unseen_topics ctxC8bot)
          (((1 : ℕ) : ℤ) - 0 - 0 - 0) true := by
    unfold BotSched.build_topic_sequence
    rw [show (id (BotSched.safetyStage ctxC8bot 1 (BotSched.mainStage ctxC8bot 1))
        : List String)
      = BotSched.safetyStage ctxC8bot 1 (BotSched.mainStage ctxC8bot 1) from rfl]
    rw [hsafety, hmain]
    exact List.take_of_length_le (by rw [hlen4])
  rw [hbuild]
  have h0 : 0 < (BotSched.fill_from_pool ctxC8bot 1 [] (unseen_topics ctxC8bot)
      (((1 : ℕ) : ℤ) - 0 - 0 - 0) true).length := by
    rw [hlen4]
    omega
  have hget : (BotSched.fill_from_pool ctxC8bot 1 [] (unseen_topics ctxC8bot)
        (((1 : ℕ) : ℤ) - 0 - 0 - 0) true).getD 0 ""
      ∈ BotSched.fill_from_pool ctxC8bot 1 [] (unseen_topics ctxC8bot)
        (((1 : ℕ) : ℤ) - 0 - 0 - 0) true := by
    rw [List.getD_eq_getElem _ _ h0]
    exact List.getElem_mem h0
  rcases BotSched.bot_fill_from_pool_subset _ _ _ _ _ _ _ hget with h | h
  · simp at h
  · simpa using (List.mem_filter.mp h).2

/-- Two topics indistinguishable to `bot.py`'s sort key (same overdue
days, accuracy and recency) but with sharply different priority scores:
`"Глаголы"` is mastered with no lapses, `"Артикли"` has zero mastery and
9 lapses out of 10 reviews. -/
def ctxC9bot : SchedInput :=
  ⟨fun t => if t = "Глаголы" then some ⟨5, 10, .iso 8⟩
            else if t = "Артикли" then some ⟨5, 10, .iso 8⟩ else none,
   fun t => if t = "Глаголы"
     then some ⟨some 1, .iso 20, .iso 8, some 10, some 0⟩
     else if t = "Артикли"
     then some ⟨some 0, .iso 20, .iso 8, some 10, some 9⟩ else none,
   [.iso 1, .iso 4, .iso 7], 10⟩

/-- C9 counterexample: `sort_pool` in `bot.py` (465-473), the one used by
the scheduler the bot runs, keys on overdue days rather than the priority
formula: it leaves `"Глаголы"` (priority ≈ 0.014) ahead of `"Артикли"`
(priority ≈ 0.449), so its pool order is not descending in priority. -/
theorem C9_counterexample :
    BotSched.sort_pool ctxC9bot ["Глаголы", "Артикли"] true
        = ["Глаголы", "Артикли"]
      ∧ Topics.priority ctxC9bot "Глаголы"
          < Topics.priority ctxC9bot "Артикли"
      ∧ ¬(BotSched.sort_pool ctxC9bot ["Глаголы", "Артикли"] true).Pairwise
          (fun a b => Topics.priority ctxC9bot b ≤ Topics.priority ctxC9bot a) := by
  have hne : ("Артикли" : String) ≠ "Глаголы" := by decide
  have hunG : ("Глаголы" : String) ∉ unseen_topics ctxC9bot := by decide
  have hunA : ("Артикли" : String) ∉ unseen_topics ctxC9bot := by decide
  have hkey : BotSched.sortKey ctxC9bot true "Глаголы"
      = BotSched.sortKey ctxC9bot true "Артикли" := by
    norm_num [BotSched.sortKey, overdue_days, last_seen_days, acc, ctxC9bot,
      hne, max_def]
  have hr : BotSched.keyLE ctxC9bot true "Глаголы" "Артикли" := by
    unfold BotSched.keyLE
    rw [hkey]
  have hsort : BotSched.sort_pool ctxC9bot ["Глаголы", "Артикли"] true
      = ["Глаголы", "Артикли"] := by
    unfold BotSched.sort_pool
    simp [List.insertionSort, List.orderedInsert, hr]
  have hlt : Topics.priority ctxC9bot "Глаголы"
      < Topics.priority ctxC9bot "Артикли" := by
    simp only [Topics.priority]
    rw [if_neg hunG, if_neg hunA]
    norm_num [Topics.mastery, Topics.lapse_rate,
      overdue_days, last_seen_days, ctxC9bot, hne, min_def, max_def]
  refine ⟨hsort, hlt, ?_⟩
  rw [hsort]
  intro hp
  have := List.rel_of_pairwise_cons hp (List.mem_singleton.mpr rfl)
  exact absurd this (not_le.mpr hlt)

end GreekQuizBot
